import Mathlib

/-!
Verification development for the TVDownloader repository.

Shallow embedding of the download-orchestration core:
`src/file_handler.py` (persistent ledger), `src/video_quality.py`
(quality selector), `src/download_manager.py` (orchestrator).

Modelling conventions:
- Python dicts become association lists over `String` keys with
  `listLookup` / `dictInsert` (assignment replaces the binding).
- The file system is a partial map `Disk : String → Option Int`
  (path to byte size of an existing file).
- External effects of the messaging client (`download_media`) are an
  environment: per (message id, call index) a `TransferOutcome`.
- `datetime.now().isoformat()` is an opaque `now : String` parameter.
- Python truthiness of strings/ints is modelled explicitly
  (`≠ ""`, `≠ 0`), matching the source's `if` conditions.
-/

namespace TVD

/-- Association-list lookup: Python `d.get(k)`. -/
def listLookup {α : Type} (k : String) : List (String × α) → Option α
  | [] => none
  | (k2, v) :: rest => if k2 = k then some v else listLookup k rest

/-- Remove every binding of key `k`. -/
def dictErase {α : Type} (k : String) : List (String × α) → List (String × α)
  | [] => []
  | (k2, v) :: rest => if k2 = k then dictErase k rest else (k2, v) :: dictErase k rest

/-- Python `d[k] = v`: bind `k` to `v`, dropping any previous binding. -/
def dictInsert {α : Type} (m : List (String × α)) (k : String) (v : α) : List (String × α) :=
  (k, v) :: dictErase k m

/-- Ledger entry status (`file_handler.py`: the `status` field). -/
inductive Status where
  | downloading
  | completed
deriving DecidableEq

/-- One ledger entry, per (channel, message id): the dict written by
`mark_file_as_downloading` / `mark_file_as_downloaded`. -/
structure MessageEntry where
  file_path : String
  file_size : Int
  quality : Option Int
  status : Status
  timestamp : String
deriving DecidableEq

/-- Channel record of the ledger (`self.metadata[channel_key]`). -/
structure ChannelRecord where
  channel_name : String
  messages : List (String × MessageEntry)
  total_files : Int
  total_size : Int
  last_updated : Option String
deriving DecidableEq

/-- The in-memory ledger `self.metadata`: channel name → channel record. -/
abbrev Metadata := List (String × ChannelRecord)

/-- File system: path → size of the file when it exists. -/
def Disk : Type := String → Option Int

/-- Record a file of size `sz` at path `p`. -/
def writeDisk (d : Disk) (p : String) (sz : Int) : Disk :=
  fun q => if q = p then some sz else d q

/-- The fresh channel record created on first write to a channel. -/
def freshChannel (channel_name : String) : ChannelRecord :=
  { channel_name := channel_name
    messages := []
    total_files := 0
    total_size := 0
    last_updated := none }

/-- `FileHandler.mark_file_as_downloading` (file_handler.py lines 136-181):
upsert a `downloading` entry, bump `total_files` only when the id is new,
touch `last_updated`. `total_size` is not touched. -/
def mark_file_as_downloading (md : Metadata) (message_id : Nat)
    (channel_name file_path : String) (expected_size : Int)
    (quality : Option Int) (now : String) : Metadata :=
  let ch := (listLookup channel_name md).getD (freshChannel channel_name)
  let key := toString message_id
  let is_new := (listLookup key ch.messages).isNone
  let entry : MessageEntry :=
    { file_path := file_path
      file_size := expected_size
      quality := quality
      status := Status.downloading
      timestamp := now }
  let ch := { ch with messages := dictInsert ch.messages key entry }
  let ch := if is_new then { ch with total_files := ch.total_files + 1 } else ch
  let ch := { ch with last_updated := some now }
  dictInsert md channel_name ch

/-- `FileHandler.mark_file_as_downloaded` (file_handler.py lines 183-238):
upsert a `completed` entry; on a new id bump `total_files` and add the size
to `total_size`; on an existing id adjust `total_size` only when the newly
recorded size differs from the previously recorded one. -/
def mark_file_as_downloaded (md : Metadata) (message_id : Nat)
    (channel_name file_path : String) (file_size : Int)
    (quality : Option Int) (now : String) : Metadata :=
  let ch := (listLookup channel_name md).getD (freshChannel channel_name)
  let key := toString message_id
  let is_new := (listLookup key ch.messages).isNone
  let old_size := ((listLookup key ch.messages).map (fun e => e.file_size)).getD 0
  let entry : MessageEntry :=
    { file_path := file_path
      file_size := file_size
      quality := quality
      status := Status.completed
      timestamp := now }
  let ch := { ch with messages := dictInsert ch.messages key entry }
  let ch :=
    if is_new then
      { ch with total_files := ch.total_files + 1, total_size := ch.total_size + file_size }
    else if old_size ≠ file_size then
      { ch with total_size := ch.total_size - old_size + file_size }
    else ch
  let ch := { ch with last_updated := some now }
  dictInsert md channel_name ch

/-- `FileHandler.is_file_downloaded` (file_handler.py lines 93-134).
Note: the source never inspects the entry's `status`; it checks only that
the recorded path is truthy, the file exists, and its size is at least the
recorded size which must be positive. -/
def is_file_downloaded (disk : Disk) (md : Metadata) (message_id : Nat)
    (channel_name : String) : Bool :=
  match listLookup channel_name md with
  | none => false
  | some ch =>
    match listLookup (toString message_id) ch.messages with
    | none => false
    | some entry =>
      let file_path := entry.file_path
      let expected_size := entry.file_size
      if file_path ≠ "" then
        match disk file_path with
        | some actual_size =>
          if actual_size ≥ expected_size ∧ expected_size > 0 then true
          else if actual_size < expected_size then false
          else false
        | none => false
      else false

/-! ## Quality selector (`video_quality.py`) -/

/-- A typed document attribute (telethon `DocumentAttribute*`). -/
inductive DocAttribute where
  | video (h : Int)
  | filename (file_name : String)
  | other
deriving DecidableEq

/-- A telethon `Document`: its attribute list, byte size, and whether it
carries any thumbnail descriptors. -/
structure Document where
  attributes : List DocAttribute
  size : Int
  thumbs : Bool
deriving DecidableEq

/-- `VideoQualityHandler.get_video_quality`: the height of the first video
attribute, else `None`. -/
def get_video_quality (document : Document) : Option Int :=
  document.attributes.findSome? (fun a =>
    match a with
    | DocAttribute.video h => some h
    | _ => none)

/-- `VideoQualityHandler.should_download_video` (video_quality.py lines
45-100).  `target_qualities` is the handler's stored, ascending-sorted
bucket list.  The source guards the chosen nearest bucket with Python
truthiness (`if best_quality:`), so a best bucket of `0` falls into the
skip branch. -/
def should_download_video (target_qualities : List Int) (download_nearest : Bool)
    (document : Document) : Bool × Option Int :=
  match get_video_quality document with
  | none => (true, none)
  | some video_quality =>
    if video_quality ∈ target_qualities then (true, some video_quality)
    else if download_nearest then
      match target_qualities.reverse.find? (fun t => video_quality ≥ t) with
      | some best_quality =>
          if best_quality ≠ 0 then (true, some best_quality) else (false, none)
      | none => (false, none)
    else (false, none)

/-! ## Filename sanitisation (`download_manager._sanitize_filename`,
`file_handler.get_series_folder`) — modelled on `List Char`, which is what
a Python `str` is (a sequence of code points). -/

/-- The nine filesystem-illegal characters of both sources. -/
def invalid_chars : List Char :=
  ['<', '>', ':', '"', '/', '\\', '|', '?', '*']

/-- The sequential single-character `str.replace(c, '_')` loop of both
sanitisers. -/
def replaceInvalid (l : List Char) : List Char :=
  invalid_chars.foldl (fun acc c => acc.map (fun x => if x = c then '_' else x)) l

/-- Python `s.strip(chars)`: drop members of `cs` from both ends. -/
def stripChars (cs : List Char) (l : List Char) : List Char :=
  ((l.dropWhile (· ∈ cs)).reverse.dropWhile (· ∈ cs)).reverse

/-- Python `s.strip()` (whitespace). -/
def pyStrip (l : List Char) : List Char :=
  stripChars [' ', '\t', '\n', '\r', '\x0b', '\x0c'] l

/-- `DownloadManager._sanitize_filename` (download_manager.py lines
331-353): replace illegal characters, strip `'. '` from both ends, then
cap at 200 characters. -/
def sanitize_filename (filename : List Char) : List Char :=
  let f := replaceInvalid filename
  let f := stripChars ['.', ' '] f
  if f.length > 200 then f.take 200 else f

/-- The series-name cleaning inside `FileHandler.get_series_folder`
(file_handler.py lines 69-91): replace illegal characters, cap at 200,
then strip `'. '`. -/
def safe_series_name (series_name : List Char) : List Char :=
  stripChars ['.', ' '] ((replaceInvalid series_name).take 200)

/-- Path of the folder returned by `FileHandler.get_series_folder`. -/
def get_series_folder_path (download_path channel_name : String)
    (series_name : String) : String :=
  download_path ++ "/" ++ channel_name ++ "/" ++ String.mk (safe_series_name series_name.toList)

/-! ## Messages and the download orchestrator (`download_manager.py`) -/

/-- Media payload of a message: telethon `MessageMediaDocument`,
`MessageMediaPhoto`, or any other media type. -/
inductive MediaPayload where
  | document (doc : Document)
  | photo
  | other
deriving DecidableEq

/-- A telethon `Message`: id, optional text (`message.message`), optional
media. -/
structure Message where
  id : Nat
  text : Option String
  media : Option MediaPayload
deriving DecidableEq

/-- Python `name.rsplit('.', 1)[0]`: everything before the last dot, or
the whole string when it has no dot. -/
def rsplitBase (l : List Char) : List Char :=
  if '.' ∈ l then ((l.reverse.dropWhile (· ≠ '.')).tail).reverse else l

/-- Priority 1 of `DownloadManager._get_series_name`: the message text,
when truthy and still truthy after stripping; newlines become spaces,
first 150 characters, stripped again. -/
def seriesFromText (msgText : Option String) : Option (List Char) :=
  match msgText with
  | none => none
  | some t =>
    if t ≠ "" then
      let text := pyStrip t.toList
      if text ≠ [] then
        let text := text.map (fun c => if c = '\n' then ' ' else if c = '\r' then ' ' else c)
        some (pyStrip (text.take 150))
      else none
    else none

/-- Priority 2 of `DownloadManager._get_series_name`: the first document
attribute carrying a truthy `file_name`, minus its extension. -/
def seriesFromDoc (message : Message) : Option (List Char) :=
  match message.media with
  | some (MediaPayload.document doc) =>
      doc.attributes.findSome? (fun a =>
        match a with
        | DocAttribute.filename n => if n ≠ "" then some (rsplitBase n.toList) else none
        | _ => none)
  | _ => none

/-- `DownloadManager._get_series_name` (download_manager.py lines
355-402): text, else document filename, else `video_{id}`; falsy (empty)
intermediate results fall through; the result is `_sanitize_filename`-ed. -/
def get_series_name (message : Message) : String :=
  let fromText := seriesFromText message.text
  let chosen :=
    match fromText with
    | some l => if l ≠ [] then some l else seriesFromDoc message
    | none => seriesFromDoc message
  let series_name :=
    match chosen with
    | some l => if l ≠ [] then l else ("video_" ++ toString message.id).toList
    | none => ("video_" ++ toString message.id).toList
  String.mk (sanitize_filename series_name)

/-- `DownloadManager._get_file_name` (download_manager.py lines 404-426):
`{name}.{quality}p.mp4`, or `{name}.mp4` when the quality is falsy
(absent or `0`). -/
def get_file_name (series_name : String) (quality : Option Int) : String :=
  match quality with
  | some q => if q ≠ 0 then series_name ++ "." ++ toString q ++ "p.mp4"
              else series_name ++ ".mp4"
  | none => series_name ++ ".mp4"

/-- Outcome of one `client.download_media` call, as seen by the retry
loop: the file was written with a size; the call returned but no file
appeared (the `VERIFY` failure); a `FloodWaitError`; any other exception. -/
inductive TransferOutcome where
  | success (size : Int)
  | successNoFile
  | floodWait (seconds : Nat)
  | failure
deriving DecidableEq

/-- External environment of the orchestrator: the transfer outcome of the
`k`-th `download_media` call for a message id, the poster bytes the
best-effort poster fetch writes (if any), and the clock. -/
structure Env where
  transfer : Nat → Nat → TransferOutcome
  poster : Nat → Option Int
  now : String

/-- Orchestrator configuration (`DownloadManager.__init__` plus the
quality handler and the `FileHandler` download path). -/
structure DMConfig where
  download_path : String
  target_qualities : List Int
  download_nearest : Bool
  retry_attempts : Nat

/-- Mutable state touched by the orchestrator: the ledger, the file
system, and the four running counters. -/
structure DMState where
  metadata : Metadata
  disk : Disk
  downloaded_count : Nat
  skipped_count : Nat
  failed_count : Nat
  total_size : Int

/-- `DownloadManager._download_description`: writes
`{folder}/description.txt` when the message text is truthy after
stripping (size: its length); best-effort, never touches the ledger. -/
def download_description (st : DMState) (message : Message)
    (series_folder : String) : DMState :=
  let description_text : List Char :=
    match message.text with
    | some t => if t ≠ "" then pyStrip t.toList else []
    | none => []
  if description_text ≠ [] then
    let disk := writeDisk st.disk (series_folder ++ "/description.txt")
      (description_text.length : Int)
    { st with disk := disk }
  else st

/-- `DownloadManager._download_poster`: best-effort write of
`{folder}/poster.jpg` for a photo payload or a document with thumbnails;
whether (and how large) the external fetch writes is the environment's
`poster` field.  Never touches the ledger. -/
def download_poster (env : Env) (st : DMState) (message : Message)
    (series_folder : String) : DMState :=
  let p := series_folder ++ "/poster.jpg"
  match message.media, env.poster message.id with
  | some MediaPayload.photo, some sz => { st with disk := writeDisk st.disk p sz }
  | some (MediaPayload.document doc), some sz =>
      if doc.thumbs then { st with disk := writeDisk st.disk p sz } else st
  | _, _ => st

/-- The `for attempt in range(self.retry_attempts)` loop of
`DownloadManager.download_video` (download_manager.py lines 275-329).
`k` is the index of the next `download_media` call, `r` the number of
loop iterations still available.  A `FloodWaitError` sleeps and issues
`continue` — which, being inside the `for`, advances the loop variable
and therefore consumes an iteration.  Any other exception consumes an
iteration after the fixed delay, and on the last one increments
`failed_count`.  A transfer that returns with the file present records
the on-disk size in the ledger and increments `downloaded_count`;
a transfer that returns without a file raises and is handled as a
generic failure.  Falling off the end of the loop returns `False`
without touching any counter. -/
def run_attempts (env : Env) (message_id : Nat)
    (channel_name file_path : String) (quality : Option Int) :
    DMState → Nat → Nat → DMState × Bool
  | st, _, 0 => (st, false)
  | st, k, r + 1 =>
    match env.transfer message_id k with
    | TransferOutcome.floodWait _ =>
        run_attempts env message_id channel_name file_path quality st (k + 1) r
    | TransferOutcome.success size =>
        ({ st with
            disk := writeDisk st.disk file_path size
            metadata := mark_file_as_downloaded st.metadata message_id channel_name
              file_path size quality env.now
            total_size := st.total_size + size
            downloaded_count := st.downloaded_count + 1 }, true)
    | TransferOutcome.successNoFile =>
        if 0 < r then
          run_attempts env message_id channel_name file_path quality st (k + 1) r
        else ({ st with failed_count := st.failed_count + 1 }, false)
    | TransferOutcome.failure =>
        if 0 < r then
          run_attempts env message_id channel_name file_path quality st (k + 1) r
        else ({ st with failed_count := st.failed_count + 1 }, false)

/-- The destination path `download_video` resolves for a document
message: `{download_path}/{channel}/{safe series}/{file name}`. -/
def resolvedFilePath (cfg : DMConfig) (channel_name : String) (message : Message) : String :=
  match message.media with
  | some (MediaPayload.document document) =>
      let series_name := get_series_name message
      let quality := (should_download_video cfg.target_qualities cfg.download_nearest document).2
      get_series_folder_path cfg.download_path channel_name series_name
        ++ "/" ++ get_file_name series_name quality
  | _ => ""

/-- Lines 247-255 of `download_video`: fetch the description and the
poster, each only when its file does not already exist.  Best-effort:
only the disk can change. -/
def fetch_side_artifacts (env : Env) (st : DMState) (message : Message)
    (series_folder : String) : DMState :=
  let st :=
    if (st.disk (series_folder ++ "/description.txt")).isSome then st
    else download_description st message series_folder
  if (st.disk (series_folder ++ "/poster.jpg")).isSome then st
  else download_poster env st message series_folder

/-- `DownloadManager.download_video` (download_manager.py lines 194-329):
dedup check, media check (a non-document message returns `False` without
touching any counter), quality check, series resolution, best-effort
description/poster side artifacts, destination-exists check, then the
retry loop. -/
def download_video (cfg : DMConfig) (env : Env) (st : DMState)
    (message : Message) (channel_name : String) : DMState × Bool :=
  let message_id := message.id
  if is_file_downloaded st.disk st.metadata message_id channel_name then
    ({ st with skipped_count := st.skipped_count + 1 }, false)
  else
    match message.media with
    | some (MediaPayload.document document) =>
        let sq := should_download_video cfg.target_qualities cfg.download_nearest document
        if sq.1 = false then
          ({ st with skipped_count := st.skipped_count + 1 }, false)
        else
          let series_name := get_series_name message
          let series_folder := get_series_folder_path cfg.download_path channel_name series_name
          let st := fetch_side_artifacts env st message series_folder
          let file_name := get_file_name series_name sq.2
          let file_path := series_folder ++ "/" ++ file_name
          if (st.disk file_path).isSome then
            ({ st with skipped_count := st.skipped_count + 1 }, false)
          else
            run_attempts env message_id channel_name file_path sq.2 st 0 cfg.retry_attempts
    | _ => (st, false)

/-- Statistics tuple returned by `download_batch`:
(downloaded, skipped, failed, total size). -/
abbrev BatchStats := Nat × Nat × Nat × Int

/-- `DownloadManager.download_batch` (download_manager.py lines 428-475).
The semaphore-bounded cooperative concurrency is serialised here: each
item's ledger/counter updates happen atomically between awaits, and the
model processes items in submission order. An empty batch reports zeros
without reading the counters. -/
def download_batch (cfg : DMConfig) (env : Env) (st : DMState)
    (messages : List Message) (channel_name : String) : DMState × BatchStats :=
  if messages.isEmpty then (st, (0, 0, 0, 0))
  else
    let st := messages.foldl (fun s m => (download_video cfg env s m channel_name).1) st
    (st, (st.downloaded_count, st.skipped_count, st.failed_count, st.total_size))

/-- `DownloadManager.reset_statistics`. -/
def reset_statistics (st : DMState) : DMState :=
  { st with downloaded_count := 0, skipped_count := 0, failed_count := 0, total_size := 0 }

/-! ## Ledger persistence (`FileHandler._load_metadata` / `_save_metadata`) -/

/-- On-disk ledger file: `none` = file absent, `some none` = file present
but unparsable, `some (some m)` = parses to `m`. -/
abbrev DiskLedger := Option (Option Metadata)

/-- `FileHandler._load_metadata` (file_handler.py lines 36-45): a missing
file and a malformed file both yield the empty ledger. -/
def load_metadata : DiskLedger → Metadata
  | none => []
  | some none => []
  | some (some m) => m

/-- `FileHandler._save_metadata` (file_handler.py lines 47-53): a failed
write (exception caught and logged) leaves the on-disk form unchanged;
nothing else happens. -/
def save_metadata (write_ok : Bool) (metadata : Metadata)
    (diskLedger : DiskLedger) : DiskLedger :=
  if write_ok then some (some metadata) else diskLedger

/-- In-memory ledger together with its persisted form. -/
structure FHState where
  metadata : Metadata
  diskLedger : DiskLedger

/-- `mark_file_as_downloading` followed by its `_save_metadata` call. -/
def mark_file_as_downloading_persist (write_ok : Bool) (fh : FHState)
    (message_id : Nat) (channel_name file_path : String) (expected_size : Int)
    (quality : Option Int) (now : String) : FHState :=
  let metadata := mark_file_as_downloading fh.metadata message_id channel_name
    file_path expected_size quality now
  { metadata := metadata, diskLedger := save_metadata write_ok metadata fh.diskLedger }

/-- `mark_file_as_downloaded` followed by its `_save_metadata` call. -/
def mark_file_as_downloaded_persist (write_ok : Bool) (fh : FHState)
    (message_id : Nat) (channel_name file_path : String) (file_size : Int)
    (quality : Option Int) (now : String) : FHState :=
  let metadata := mark_file_as_downloaded fh.metadata message_id channel_name
    file_path file_size quality now
  { metadata := metadata, diskLedger := save_metadata write_ok metadata fh.diskLedger }

/-! ## Derived observers of the ledger -/

/-- The channel's `total_files` (0 when the channel has no record). -/
def totalFilesOf (md : Metadata) (ch : String) : Int :=
  ((listLookup ch md).map (fun r => r.total_files)).getD 0

/-- The channel's `total_size` (0 when the channel has no record). -/
def totalSizeOf (md : Metadata) (ch : String) : Int :=
  ((listLookup ch md).map (fun r => r.total_size)).getD 0

/-- The channel's `last_updated`. -/
def lastUpdatedOf (md : Metadata) (ch : String) : Option String :=
  (listLookup ch md).bind (fun r => r.last_updated)

/-- The entry recorded for a (channel, message-key) pair. -/
def msgEntry (md : Metadata) (ch k : String) : Option MessageEntry :=
  (listLookup ch md).bind (fun r => listLookup k r.messages)

/-- Sum of `file_size` over the `completed` entries of a message dict:
the "most recent completed size per item", the dict holding exactly the
most recent entry of each item. -/
def completedSizeSum (msgs : List (String × MessageEntry)) : Int :=
  ((msgs.filter (fun p => p.2.status = Status.completed)).map (fun p => p.2.file_size)).sum

/-! ## Association-list lemmas -/

theorem listLookup_dictErase_ne {α : Type} {k' k : String} (m : List (String × α))
    (h : k' ≠ k) : listLookup k' (dictErase k m) = listLookup k' m := by
  induction m with
  | nil => rfl
  | cons hd tl ih =>
    obtain ⟨k2, v⟩ := hd
    by_cases hk : k2 = k
    · subst hk
      simpa [dictErase, listLookup, Ne.symm h] using ih
    · simp only [dictErase, hk, if_false, listLookup]
      by_cases h2 : k2 = k'
      · simp [h2]
      · simp [h2, ih]

@[simp] theorem listLookup_dictInsert_self {α : Type} (m : List (String × α))
    (k : String) (v : α) : listLookup k (dictInsert m k v) = some v := by
  simp [dictInsert, listLookup]

theorem listLookup_dictInsert_ne {α : Type} {k' k : String} (m : List (String × α))
    (v : α) (h : k' ≠ k) : listLookup k' (dictInsert m k v) = listLookup k' m := by
  simp [dictInsert, listLookup, Ne.symm h, listLookup_dictErase_ne m h]

/-! ## Claim C8 -/

/-- Claim C8: ledger persistence failures are non-fatal and do not roll
back.  Loading a missing (`none`) or malformed (`some none`) on-disk
ledger yields the empty in-memory ledger, and after either mark
operation the in-memory ledger equals the pure in-memory update
regardless of whether the persist write succeeded. -/
theorem c8_persistence_nonfatal :
    load_metadata none = ([] : Metadata) ∧
    load_metadata (some none) = ([] : Metadata) ∧
    (∀ (write_ok : Bool) (fh : FHState) (id : Nat) (ch path : String)
        (sz : Int) (q : Option Int) (now : String),
      (mark_file_as_downloading_persist write_ok fh id ch path sz q now).metadata
        = mark_file_as_downloading fh.metadata id ch path sz q now) ∧
    (∀ (write_ok : Bool) (fh : FHState) (id : Nat) (ch path : String)
        (sz : Int) (q : Option Int) (now : String),
      (mark_file_as_downloaded_persist write_ok fh id ch path sz q now).metadata
        = mark_file_as_downloaded fh.metadata id ch path sz q now) :=
  ⟨rfl, rfl, fun _ _ _ _ _ _ _ _ => rfl, fun _ _ _ _ _ _ _ _ => rfl⟩

/-! ## Claim C3 -/

/-- A ledger entry that is still in `downloading` state. -/
def c3_entry : MessageEntry :=
  { file_path := "p", file_size := 5, quality := none
    status := Status.downloading, timestamp := "t" }

/-- A ledger whose only entry for channel `c`, item `1`, is `c3_entry`. -/
def c3_md : Metadata :=
  [("c", { channel_name := "c", messages := [("1", c3_entry)]
           total_files := 1, total_size := 0, last_updated := none })]

/-- A disk holding a 5-byte file at path `p`. -/
def c3_disk : Disk := fun q => if q = "p" then some 5 else none

/-- Claim C3 is false as stated: `is_file_downloaded` never inspects the
entry's `status`.  Here the unique entry recorded for (channel `c`,
item `1`) has status `downloading` — no `completed` entry exists for the
pair — yet the function returns `true`, because the on-disk file matches
the recorded size. -/
theorem c3_counterexample :
    is_file_downloaded c3_disk c3_md 1 "c" = true ∧
    msgEntry c3_md "c" "1" = some c3_entry ∧
    c3_entry.status = Status.downloading := by
  refine ⟨by decide, by decide, rfl⟩

/-- Claim C3, amended: `is_file_downloaded` returns `true` iff an entry
exists for the (channel, item) pair — of *any* status, the source never
checks `status` — whose recorded path is nonempty and whose file exists
on disk with size at least the recorded size, the recorded size being
strictly positive.  In particular a recorded size of 0 never counts, and
an existing file strictly smaller than the recorded size yields
`false`. -/
theorem c3_is_downloaded_characterisation (disk : Disk) (md : Metadata)
    (id : Nat) (ch : String) :
    is_file_downloaded disk md id ch = true ↔
      ∃ rec entry actual, listLookup ch md = some rec ∧
        listLookup (toString id) rec.messages = some entry ∧
        entry.file_path ≠ "" ∧
        disk entry.file_path = some actual ∧
        entry.file_size ≤ actual ∧ 0 < entry.file_size := by
  constructor
  · intro ht
    unfold is_file_downloaded at ht
    cases h1 : listLookup ch md with
    | none =>
      simp only [h1] at ht
      exact absurd ht (by decide)
    | some rec =>
      simp only [h1] at ht
      cases h2 : listLookup (toString id) rec.messages with
      | none =>
        simp only [h2] at ht
        exact absurd ht (by decide)
      | some entry =>
        simp only [h2] at ht
        by_cases hp : entry.file_path ≠ ""
        · rw [if_pos hp] at ht
          cases h3 : disk entry.file_path with
          | none =>
            simp only [h3] at ht
            exact absurd ht (by decide)
          | some a =>
            simp only [h3] at ht
            by_cases h4 : a ≥ entry.file_size ∧ entry.file_size > 0
            · exact ⟨rec, entry, a, rfl, h2, hp, h3, h4.1, h4.2⟩
            · rw [if_neg h4] at ht
              by_cases h5 : a < entry.file_size
              · rw [if_pos h5] at ht; simp at ht
              · rw [if_neg h5] at ht; simp at ht
        · rw [if_neg hp] at ht; simp at ht
  · rintro ⟨rec, entry, a, h1, h2, hne, h3, hle, hpos⟩
    unfold is_file_downloaded
    simp only [h1, h2]
    rw [if_pos hne]
    simp only [h3]
    rw [if_pos (show a ≥ entry.file_size ∧ entry.file_size > 0 from ⟨hle, hpos⟩)]

/-! ## Claim C9 -/

/-- Claim C9: `mark_file_as_downloading` never changes the channel's
`total_size` — even when it overwrites an existing `completed` entry
whose recorded size differs from the new expected size.  It leaves every
other channel untouched, leaves every other message key of the channel
untouched, increments `total_files` exactly when the item id is new to
the channel, and refreshes `last_updated`. -/
theorem c9_mark_downloading_frame (md : Metadata) (id : Nat) (ch path : String)
    (sz : Int) (q : Option Int) (now : String) :
    totalSizeOf (mark_file_as_downloading md id ch path sz q now) ch = totalSizeOf md ch ∧
    (∀ ch', ch' ≠ ch →
      listLookup ch' (mark_file_as_downloading md id ch path sz q now) = listLookup ch' md) ∧
    (∀ k, k ≠ toString id →
      msgEntry (mark_file_as_downloading md id ch path sz q now) ch k = msgEntry md ch k) ∧
    totalFilesOf (mark_file_as_downloading md id ch path sz q now) ch
      = totalFilesOf md ch + (if msgEntry md ch (toString id) = none then 1 else 0) ∧
    lastUpdatedOf (mark_file_as_downloading md id ch path sz q now) ch = some now := by
  refine ⟨?_, ?_, ?_, ?_, ?_⟩
  · cases h : listLookup ch md with
    | none =>
      simp [mark_file_as_downloading, totalSizeOf, h, freshChannel,
        apply_ite ChannelRecord.total_size]
    | some rec =>
      simp [mark_file_as_downloading, totalSizeOf, h,
        apply_ite ChannelRecord.total_size]
  · intro ch' hne
    exact listLookup_dictInsert_ne md _ hne
  · intro k hk
    cases h : listLookup ch md with
    | none =>
      simp [mark_file_as_downloading, msgEntry, h, freshChannel,
        apply_ite ChannelRecord.messages, listLookup_dictInsert_ne _ _ hk, listLookup,
        Ne.symm hk]
    | some rec =>
      simp [mark_file_as_downloading, msgEntry, h,
        apply_ite ChannelRecord.messages, listLookup_dictInsert_ne _ _ hk]
  · cases h : listLookup ch md with
    | none =>
      simp [mark_file_as_downloading, totalFilesOf, msgEntry, h, freshChannel,
        apply_ite ChannelRecord.total_files, listLookup]
    | some rec =>
      cases hk : listLookup (toString id) rec.messages with
      | none =>
        simp [mark_file_as_downloading, totalFilesOf, msgEntry, h, hk,
          apply_ite ChannelRecord.total_files]
      | some e =>
        simp [mark_file_as_downloading, totalFilesOf, msgEntry, h, hk,
          apply_ite ChannelRecord.total_files]
  · cases h : listLookup ch md with
    | none =>
      simp [mark_file_as_downloading, lastUpdatedOf, h, freshChannel,
        apply_ite ChannelRecord.last_updated]
    | some rec =>
      simp [mark_file_as_downloading, lastUpdatedOf, h,
        apply_ite ChannelRecord.last_updated]

/-! ## Claim C4 -/

/-- On a descending list, `find?` of "≤ h" returns the greatest element
that is `≤ h`. -/
theorem find?_descending_max (R : List Int) (h m : Int)
    (hsort : List.Pairwise (· ≥ ·) R) (hmem : m ∈ R) (hle : m ≤ h)
    (hmax : ∀ t ∈ R, t ≤ h → t ≤ m) :
    R.find? (fun t => h ≥ t) = some m := by
  induction R with
  | nil => cases hmem
  | cons a R ih =>
    by_cases ha : a ≤ h
    · have h1 : a ≤ m := hmax a (List.mem_cons_self a R) ha
      have h2 : m ≤ a := by
        rcases List.mem_cons.mp hmem with he | hm
        · exact le_of_eq he
        · exact (List.pairwise_cons.mp hsort).1 m hm
      have hma : a = m := le_antisymm h1 h2
      rw [List.find?_cons_of_pos _ (by simpa using ha), hma]
    · rw [List.find?_cons_of_neg _ (by simpa using ha)]
      have hmem' : m ∈ R := by
        rcases List.mem_cons.mp hmem with he | hm
        · exact absurd (he ▸ hle) ha
        · exact hm
      exact ih (List.pairwise_cons.mp hsort).2 hmem'
        (fun t ht hth => hmax t (List.mem_cons_of_mem a ht) hth)

/-- A document whose sole video attribute reports height 300. -/
def c4_doc : Document :=
  { attributes := [DocAttribute.video 300], size := 1, thumbs := false }

/-- Claim C4 is false as stated: for the ascending-sorted bucket list
`[0, 720]` and known height 300 (not a bucket), the maximum bucket
`m ≤ 300` exists and is `0`, so the claim requires `(true, 0)`; but the
source guards the chosen bucket with Python truthiness
(`if best_quality:`), and `0` is falsy, so the code returns
`(false, null)`. -/
theorem c4_counterexample :
    should_download_video [0, 720] true c4_doc = (false, none) ∧
    should_download_video [0, 720] true c4_doc ≠ (true, some 0) ∧
    get_video_quality c4_doc = some 300 ∧
    (300 : Int) ∉ ([0, 720] : List Int) ∧
    (0 : Int) ∈ ([0, 720] : List Int) ∧ (0 : Int) ≤ 300 ∧
    (∀ t ∈ ([0, 720] : List Int), t ≤ 300 → t ≤ 0) := by
  refine ⟨by decide, by decide, by decide, by decide, by decide, by decide, by decide⟩

/-- Claim C4, amended: with an ascending-sorted bucket list `T`, the
selector returns `(true, null)` for unknown height, `(true, h)` when
`h ∈ T`, and — with `allow_nearest` — `(true, m)` for the greatest bucket
`m ≤ h` *provided `m ≠ 0`*; when that greatest qualifying bucket is `0`
(Python truthiness treats it as absent), or when no bucket is `≤ h`, it
returns `(false, null)`; with `allow_nearest = false` a known height not
in `T` returns `(false, null)`. -/
theorem c4_quality_selection (T : List Int) (nearest : Bool) (doc : Document)
    (hsort : List.Sorted (· ≤ ·) T) :
    (get_video_quality doc = none → should_download_video T nearest doc = (true, none)) ∧
    (∀ h, get_video_quality doc = some h → h ∈ T →
      should_download_video T nearest doc = (true, some h)) ∧
    (∀ h m, get_video_quality doc = some h → h ∉ T → nearest = true →
      m ∈ T → m ≤ h → (∀ t ∈ T, t ≤ h → t ≤ m) → m ≠ 0 →
      should_download_video T nearest doc = (true, some m)) ∧
    (∀ h m, get_video_quality doc = some h → h ∉ T → nearest = true →
      m ∈ T → m ≤ h → (∀ t ∈ T, t ≤ h → t ≤ m) → m = 0 →
      should_download_video T nearest doc = (false, none)) ∧
    (∀ h, get_video_quality doc = some h → nearest = true →
      (∀ t ∈ T, ¬ t ≤ h) →
      should_download_video T nearest doc = (false, none)) ∧
    (∀ h, get_video_quality doc = some h → h ∉ T → nearest = false →
      should_download_video T nearest doc = (false, none)) := by
  have hdesc : List.Pairwise (· ≥ ·) T.reverse := by
    rw [List.pairwise_reverse]; exact hsort
  refine ⟨?_, ?_, ?_, ?_, ?_, ?_⟩
  · intro hq
    unfold should_download_video
    simp only [hq]
  · intro h hq hmem
    unfold should_download_video
    simp only [hq]
    rw [if_pos hmem]
  · intro h m hq hnot hn hmem hle hmax hne
    unfold should_download_video
    simp only [hq, hn]
    rw [if_neg hnot]
    simp only [if_true]
    rw [find?_descending_max T.reverse h m hdesc (List.mem_reverse.mpr hmem) hle
      (fun t ht hth => hmax t (List.mem_reverse.mp ht) hth)]
    simp [hne]
  · intro h m hq hnot hn hmem hle hmax hz
    unfold should_download_video
    simp only [hq, hn]
    rw [if_neg hnot]
    simp only [if_true]
    rw [find?_descending_max T.reverse h m hdesc (List.mem_reverse.mpr hmem) hle
      (fun t ht hth => hmax t (List.mem_reverse.mp ht) hth)]
    simp [hz]
  · intro h hq hn hno
    have hnot : h ∉ T := fun hmem => hno h hmem le_rfl
    unfold should_download_video
    simp only [hq, hn]
    rw [if_neg hnot]
    simp only [if_true]
    have : T.reverse.find? (fun t => h ≥ t) = none := by
      rw [List.find?_eq_none]
      intro t ht
      simpa using hno t (List.mem_reverse.mp ht)
    rw [this]
  · intro h hq hnot hn
    unfold should_download_video
    simp only [hq, hn]
    rw [if_neg hnot]
    simp

/-- Witness for the amended C4 theorem at the spec's own example:
`T = [360, 480, 720]`, height 540 → `(true, 480)`. -/
theorem c4_quality_selection_witness :
    should_download_video [360, 480, 720] true
      ({ attributes := [DocAttribute.video 540], size := 1, thumbs := false }) = (true, some 480) :=
  (c4_quality_selection [360, 480, 720] true
      ({ attributes := [DocAttribute.video 540], size := 1, thumbs := false })
      (by decide)).2.2.1 540 480 (by decide) (by decide) rfl (by decide) (by decide)
    (by decide) (by decide)

/-! ## Claim C7 -/

/-- The sequential per-character replace loop equals a single map. -/
theorem foldl_replace_eq (cs : List Char) (l : List Char) (hu : '_' ∉ cs) :
    cs.foldl (fun acc c => acc.map (fun x => if x = c then '_' else x)) l
      = l.map (fun x => if x ∈ cs then '_' else x) := by
  induction cs generalizing l with
  | nil => simp
  | cons c cs ih =>
    have hu' : '_' ∉ cs := fun h => hu (List.mem_cons_of_mem _ h)
    rw [List.foldl_cons, ih _ hu', List.map_map]
    refine List.map_congr_left ?_
    intro x _
    by_cases hxc : x = c
    · subst hxc
      simp [hu']
    · simp [hxc, Function.comp]

/-- Every character of `replaceInvalid l` is legal. -/
theorem mem_replaceInvalid (l : List Char) (c : Char) (hc : c ∈ replaceInvalid l) :
    c ∉ invalid_chars := by
  unfold replaceInvalid at hc
  rw [foldl_replace_eq _ _ (by decide)] at hc
  obtain ⟨y, -, hy⟩ := List.mem_map.mp hc
  by_cases hm : y ∈ invalid_chars
  · rw [if_pos hm] at hy
    rw [← hy]; decide
  · rw [if_neg hm] at hy
    rw [← hy]; exact hm

/-- `stripChars` only removes characters. -/
theorem mem_stripChars (cs l : List Char) (c : Char) (hc : c ∈ stripChars cs l) :
    c ∈ l := by
  unfold stripChars at hc
  rw [List.mem_reverse] at hc
  have h1 := (List.dropWhile_sublist _).subset hc
  rw [List.mem_reverse] at h1
  exact (List.dropWhile_sublist _).subset h1

theorem length_stripChars_le (cs l : List Char) :
    (stripChars cs l).length ≤ l.length := by
  unfold stripChars
  rw [List.length_reverse]
  calc ((l.dropWhile (· ∈ cs)).reverse.dropWhile (· ∈ cs)).length
      ≤ (l.dropWhile (· ∈ cs)).reverse.length := (List.dropWhile_sublist _).length_le
    _ = (l.dropWhile (· ∈ cs)).length := List.length_reverse _
    _ ≤ l.length := (List.dropWhile_sublist _).length_le

/-- The head of a `dropWhile` fails the predicate. -/
theorem head?_dropWhile_false {α : Type} (p : α → Bool) (l : List α) (c : α)
    (h : (l.dropWhile p).head? = some c) : p c = false := by
  induction l with
  | nil => simp [List.dropWhile] at h
  | cons a l ih =>
    rw [List.dropWhile_cons] at h
    by_cases hp : p a
    · rw [if_pos (by simpa using hp)] at h
      exact ih h
    · rw [if_neg (by simpa using hp)] at h
      simp only [List.head?_cons, Option.some.injEq] at h
      rw [← h]
      exact Bool.eq_false_iff.mpr hp

/-- The last character surviving `stripChars cs` is not in `cs`. -/
theorem getLast?_stripChars (cs l : List Char) (c : Char)
    (hc : (stripChars cs l).getLast? = some c) : c ∉ cs := by
  unfold stripChars at hc
  rw [List.getLast?_reverse] at hc
  have := head?_dropWhile_false _ _ _ hc
  simpa using this

/-- A 201-character name: 199 `a`s, then `.`, then `b`. -/
def c7_input : List Char := List.replicate 199 'a' ++ ['.', 'b']

set_option maxRecDepth 40000 in
/-- Claim C7 is false as stated for `_sanitize_filename`
(download_manager.py): that function strips `'. '` *before* capping at
200 characters — the opposite order from the claim — so on this
201-character input (which has nothing to strip) the cap cuts the final
`b` and the result ends in `'.'`. -/
theorem c7_counterexample :
    (sanitize_filename c7_input).getLast? = some '.' ∧
    (sanitize_filename c7_input).length = 200 := by
  constructor
  · decide
  · decide

/-- Claim C7, amended: both sanitisers replace each of the nine illegal
characters with `_` and produce at most 200 characters.  The
`get_series_folder` variant caps at 200 *before* trimming trailing
(and leading) `.`/space, so its result additionally never ends in `.`
or space; `_sanitize_filename` trims *before* capping, so its result
can end in `.` or space when the trimmed name exceeds 200 characters. -/
theorem c7_sanitisation :
    (∀ l, (safe_series_name l).length ≤ 200) ∧
    (∀ l c, c ∈ safe_series_name l → c ∉ invalid_chars) ∧
    (∀ l c, (safe_series_name l).getLast? = some c → c ≠ '.' ∧ c ≠ ' ') ∧
    (∀ l, (sanitize_filename l).length ≤ 200) ∧
    (∀ l c, c ∈ sanitize_filename l → c ∉ invalid_chars) := by
  refine ⟨?_, ?_, ?_, ?_, ?_⟩
  · intro l
    unfold safe_series_name
    calc (stripChars ['.', ' '] ((replaceInvalid l).take 200)).length
        ≤ ((replaceInvalid l).take 200).length := length_stripChars_le _ _
      _ ≤ 200 := by simp
  · intro l c hc
    unfold safe_series_name at hc
    have h1 := mem_stripChars _ _ _ hc
    have h2 := List.mem_of_mem_take h1
    exact mem_replaceInvalid _ _ h2
  · intro l c hc
    have := getLast?_stripChars _ _ _ hc
    constructor
    · intro h; exact this (by rw [h]; exact List.mem_cons_self _ _)
    · intro h; exact this (by rw [h]; exact List.mem_cons_of_mem _ (List.mem_cons_self _ _))
  · intro l
    unfold sanitize_filename
    by_cases hlen : (stripChars ['.', ' '] (replaceInvalid l)).length > 200
    · rw [if_pos hlen]
      simp
    · rw [if_neg hlen]
      omega
  · intro l c hc
    unfold sanitize_filename at hc
    by_cases hlen : (stripChars ['.', ' '] (replaceInvalid l)).length > 200
    · rw [if_pos hlen] at hc
      exact mem_replaceInvalid _ _ (mem_stripChars _ _ _ (List.mem_of_mem_take hc))
    · rw [if_neg hlen] at hc
      exact mem_replaceInvalid _ _ (mem_stripChars _ _ _ hc)

/-! ## Claim C2 — normal forms and dictionary lemmas -/

theorem listLookup_eq_none_iff {α : Type} (k : String) (m : List (String × α)) :
    listLookup k m = none ↔ k ∉ m.map Prod.fst := by
  induction m with
  | nil => simp [listLookup]
  | cons hd tl ih =>
    obtain ⟨k2, v⟩ := hd
    by_cases h : k2 = k
    · subst h; simp [listLookup]
    · simp [listLookup, h, ih, Ne.symm h]

theorem map_fst_dictErase {α : Type} (k : String) (m : List (String × α)) :
    (dictErase k m).map Prod.fst = (m.map Prod.fst).filter (fun x => x ≠ k) := by
  induction m with
  | nil => rfl
  | cons hd tl ih =>
    obtain ⟨k2, v⟩ := hd
    by_cases h : k2 = k
    · subst h; simp [dictErase, ih]
    · simp [dictErase, h, ih]

theorem mem_dictErase {α : Type} (k : String) (m : List (String × α))
    (p : String × α) (hp : p ∈ dictErase k m) : p ∈ m := by
  induction m with
  | nil => cases hp
  | cons hd tl ih =>
    obtain ⟨k2, v⟩ := hd
    by_cases h : k2 = k
    · subst h
      simp only [dictErase, if_true] at hp
      exact List.mem_cons_of_mem _ (ih hp)
    · simp only [dictErase, h, if_false, List.mem_cons] at hp
      rcases hp with he | hm
      · exact he ▸ List.mem_cons_self _ _
      · exact List.mem_cons_of_mem _ (ih hm)

theorem dictErase_of_not_mem {α : Type} (k : String) (m : List (String × α))
    (h : k ∉ m.map Prod.fst) : dictErase k m = m := by
  induction m with
  | nil => rfl
  | cons hd tl ih =>
    obtain ⟨k2, v⟩ := hd
    simp only [List.map_cons, List.mem_cons] at h
    push_neg at h
    simp [dictErase, Ne.symm h.1, ih h.2]

/-- Keys stay duplicate-free across a dict assignment. -/
theorem nodup_keys_dictInsert {α : Type} (m : List (String × α)) (k : String) (v : α)
    (h : (m.map Prod.fst).Nodup) : ((dictInsert m k v).map Prod.fst).Nodup := by
  simp only [dictInsert, List.map_cons, List.nodup_cons, map_fst_dictErase]
  constructor
  · intro hc
    exact absurd ((List.mem_filter.mp hc).2) (by simp)
  · exact h.filter _

theorem toFinset_keys_dictInsert {α : Type} (m : List (String × α)) (k : String) (v : α) :
    ((dictInsert m k v).map Prod.fst).toFinset = insert k (m.map Prod.fst).toFinset := by
  ext x
  simp only [dictInsert, List.map_cons, List.toFinset_cons, Finset.mem_insert,
    List.mem_toFinset, map_fst_dictErase, List.mem_filter]
  constructor
  · rintro (he | ⟨hm, -⟩)
    · exact Or.inl he
    · exact Or.inr hm
  · rintro (he | hm)
    · exact Or.inl he
    · by_cases hx : x = k
      · exact Or.inl hx
      · exact Or.inr ⟨hm, by simpa using hx⟩

/-- The set of message keys recorded for a channel. -/
def keysFinset (md : Metadata) (ch : String) : Finset String :=
  ((listLookup ch md).map (fun r => (r.messages.map Prod.fst).toFinset)).getD ∅

theorem getD_messages_toFinset (md : Metadata) (ch : String) :
    (((listLookup ch md).getD (freshChannel ch)).messages.map Prod.fst).toFinset
      = keysFinset md ch := by
  unfold keysFinset
  cases listLookup ch md with
  | none => simp [freshChannel]
  | some r => rfl

theorem getD_total_files (md : Metadata) (ch : String) :
    ((listLookup ch md).getD (freshChannel ch)).total_files = totalFilesOf md ch := by
  unfold totalFilesOf
  cases listLookup ch md with
  | none => simp [freshChannel]
  | some r => rfl

theorem getD_total_size (md : Metadata) (ch : String) :
    ((listLookup ch md).getD (freshChannel ch)).total_size = totalSizeOf md ch := by
  unfold totalSizeOf
  cases listLookup ch md with
  | none => simp [freshChannel]
  | some r => rfl

/-- The channel record produced by `mark_file_as_downloaded`. -/
def markedDownRecord (md : Metadata) (message_id : Nat) (ch path : String)
    (size : Int) (q : Option Int) (now : String) : ChannelRecord :=
  let rec0 := (listLookup ch md).getD (freshChannel ch)
  let key := toString message_id
  let is_new := (listLookup key rec0.messages).isNone
  let old_size := ((listLookup key rec0.messages).map (fun e => e.file_size)).getD 0
  { channel_name := rec0.channel_name
    messages := dictInsert rec0.messages key
      ({ file_path := path, file_size := size, quality := q
         status := Status.completed, timestamp := now })
    total_files := rec0.total_files + (if is_new then 1 else 0)
    total_size :=
      if is_new then rec0.total_size + size
      else if old_size ≠ size then rec0.total_size - old_size + size
      else rec0.total_size
    last_updated := some now }

theorem mark_downloaded_eq (md : Metadata) (message_id : Nat) (ch path : String)
    (size : Int) (q : Option Int) (now : String) :
    mark_file_as_downloaded md message_id ch path size q now
      = dictInsert md ch (markedDownRecord md message_id ch path size q now) := by
  unfold mark_file_as_downloaded markedDownRecord
  by_cases hnew :
      (listLookup (toString message_id)
        ((listLookup ch md).getD (freshChannel ch)).messages).isNone
  · simp [hnew]
  · by_cases hsz :
        ((listLookup (toString message_id)
            ((listLookup ch md).getD (freshChannel ch)).messages).map
          (fun e => e.file_size)).getD 0 ≠ size
    · simp [hnew, hsz]
    · simp [hnew, hsz]

/-- The channel record produced by `mark_file_as_downloading`. -/
def markedIngRecord (md : Metadata) (message_id : Nat) (ch path : String)
    (size : Int) (q : Option Int) (now : String) : ChannelRecord :=
  let rec0 := (listLookup ch md).getD (freshChannel ch)
  let key := toString message_id
  let is_new := (listLookup key rec0.messages).isNone
  { channel_name := rec0.channel_name
    messages := dictInsert rec0.messages key
      ({ file_path := path, file_size := size, quality := q
         status := Status.downloading, timestamp := now })
    total_files := rec0.total_files + (if is_new then 1 else 0)
    total_size := rec0.total_size
    last_updated := some now }

theorem mark_downloading_eq (md : Metadata) (message_id : Nat) (ch path : String)
    (size : Int) (q : Option Int) (now : String) :
    mark_file_as_downloading md message_id ch path size q now
      = dictInsert md ch (markedIngRecord md message_id ch path size q now) := by
  unfold mark_file_as_downloading markedIngRecord
  by_cases hnew :
      (listLookup (toString message_id)
        ((listLookup ch md).getD (freshChannel ch)).messages).isNone
  · simp [hnew]
  · simp [hnew]

/-! ## Claim C2 — call sequences -/

/-- One call to a mark operation of the ledger. -/
inductive MarkCall where
  | downloading (id : Nat) (channel path : String) (size : Int)
      (q : Option Int) (now : String)
  | downloaded (id : Nat) (channel path : String) (size : Int)
      (q : Option Int) (now : String)

/-- Execute one mark call against the ledger. -/
def MarkCall.apply (md : Metadata) : MarkCall → Metadata
  | MarkCall.downloading id ch path size q now =>
      mark_file_as_downloading md id ch path size q now
  | MarkCall.downloaded id ch path size q now =>
      mark_file_as_downloaded md id ch path size q now

/-- Execute a sequence of mark calls on an initially empty ledger. -/
def applyCalls (calls : List MarkCall) : Metadata :=
  calls.foldl MarkCall.apply []

def MarkCall.channel : MarkCall → String
  | MarkCall.downloading _ ch _ _ _ _ => ch
  | MarkCall.downloaded _ ch _ _ _ _ => ch

def MarkCall.msgKey : MarkCall → String
  | MarkCall.downloading id _ _ _ _ _ => toString id
  | MarkCall.downloaded id _ _ _ _ _ => toString id

def MarkCall.isDownloading : MarkCall → Bool
  | MarkCall.downloading _ _ _ _ _ _ => true
  | MarkCall.downloaded _ _ _ _ _ _ => false

/-- The distinct item keys ever marked for a channel by a call sequence. -/
def markedKeys (calls : List MarkCall) (ch : String) : Finset String :=
  ((calls.filter (fun c => c.channel = ch)).map MarkCall.msgKey).toFinset

theorem keysFinset_dictInsert_record (md : Metadata) (ch : String)
    (rec' : ChannelRecord) (ch' : String) :
    keysFinset (dictInsert md ch rec') ch' =
      if ch = ch' then (rec'.messages.map Prod.fst).toFinset else keysFinset md ch' := by
  by_cases h : ch = ch'
  · subst h
    unfold keysFinset
    rw [listLookup_dictInsert_self]
    simp
  · unfold keysFinset
    rw [listLookup_dictInsert_ne _ _ (Ne.symm h), if_neg h]

/-- Effect of one mark call on the key set of every channel. -/
theorem keysFinset_apply (c : MarkCall) (md : Metadata) (ch : String) :
    keysFinset (MarkCall.apply md c) ch =
      if c.channel = ch then insert c.msgKey (keysFinset md ch)
      else keysFinset md ch := by
  cases c with
  | downloading id ch0 path size q now =>
    rw [MarkCall.apply, mark_downloading_eq, keysFinset_dictInsert_record]
    by_cases h : ch0 = ch
    · rw [if_pos h, if_pos (show MarkCall.channel (MarkCall.downloading id ch0 path size q now) = ch from h)]
      unfold markedIngRecord
      simp only [toFinset_keys_dictInsert, getD_messages_toFinset]
      subst h; rfl
    · rw [if_neg h, if_neg (show ¬ MarkCall.channel (MarkCall.downloading id ch0 path size q now) = ch from h)]
  | downloaded id ch0 path size q now =>
    rw [MarkCall.apply, mark_downloaded_eq, keysFinset_dictInsert_record]
    by_cases h : ch0 = ch
    · rw [if_pos h, if_pos (show MarkCall.channel (MarkCall.downloaded id ch0 path size q now) = ch from h)]
      unfold markedDownRecord
      simp only [toFinset_keys_dictInsert, getD_messages_toFinset]
      subst h; rfl
    · rw [if_neg h, if_neg (show ¬ MarkCall.channel (MarkCall.downloaded id ch0 path size q now) = ch from h)]

theorem totalFilesOf_dictInsert_record (md : Metadata) (ch : String)
    (rec' : ChannelRecord) (ch' : String) :
    totalFilesOf (dictInsert md ch rec') ch' =
      if ch = ch' then rec'.total_files else totalFilesOf md ch' := by
  by_cases h : ch = ch'
  · subst h
    unfold totalFilesOf
    rw [listLookup_dictInsert_self]
    simp
  · unfold totalFilesOf
    rw [listLookup_dictInsert_ne _ _ (Ne.symm h), if_neg h]

theorem isNone_listLookup_iff_not_mem_keysFinset (md : Metadata) (ch k : String) :
    (listLookup k ((listLookup ch md).getD (freshChannel ch)).messages).isNone
      ↔ k ∉ keysFinset md ch := by
  rw [Option.isNone_iff_eq_none, listLookup_eq_none_iff, ← getD_messages_toFinset md ch,
    List.mem_toFinset]

/-- Effect of one mark call on `total_files` of every channel. -/
theorem totalFiles_apply (c : MarkCall) (md : Metadata) (ch : String) :
    totalFilesOf (MarkCall.apply md c) ch =
      if c.channel = ch then
        totalFilesOf md ch + (if c.msgKey ∈ keysFinset md ch then 0 else 1)
      else totalFilesOf md ch := by
  cases c with
  | downloading id ch0 path size q now =>
    rw [MarkCall.apply, mark_downloading_eq, totalFilesOf_dictInsert_record]
    by_cases h : ch0 = ch
    · rw [if_pos h, if_pos (show MarkCall.channel (MarkCall.downloading id ch0 path size q now) = ch from h)]
      subst h
      unfold markedIngRecord
      simp only [getD_total_files]
      by_cases hmem : MarkCall.msgKey (MarkCall.downloading id ch0 path size q now) ∈ keysFinset md ch0
      · rw [if_pos hmem,
          if_neg (by rw [isNone_listLookup_iff_not_mem_keysFinset]; simpa using hmem)]
      · rw [if_neg hmem,
          if_pos (by rw [isNone_listLookup_iff_not_mem_keysFinset]; simpa using hmem)]
    · rw [if_neg h, if_neg (show ¬ MarkCall.channel (MarkCall.downloading id ch0 path size q now) = ch from h)]
  | downloaded id ch0 path size q now =>
    rw [MarkCall.apply, mark_downloaded_eq, totalFilesOf_dictInsert_record]
    by_cases h : ch0 = ch
    · rw [if_pos h, if_pos (show MarkCall.channel (MarkCall.downloaded id ch0 path size q now) = ch from h)]
      subst h
      unfold markedDownRecord
      simp only [getD_total_files]
      by_cases hmem : MarkCall.msgKey (MarkCall.downloaded id ch0 path size q now) ∈ keysFinset md ch0
      · rw [if_pos hmem,
          if_neg (by rw [isNone_listLookup_iff_not_mem_keysFinset]; simpa using hmem)]
      · rw [if_neg hmem,
          if_pos (by rw [isNone_listLookup_iff_not_mem_keysFinset]; simpa using hmem)]
    · rw [if_neg h, if_neg (show ¬ MarkCall.channel (MarkCall.downloaded id ch0 path size q now) = ch from h)]

/-- Folding mark calls: the key set grows by the marked keys, and
`total_files` tracks its cardinality. -/
theorem foldl_keys_files (calls : List MarkCall) :
    ∀ md : Metadata,
      (∀ ch, totalFilesOf md ch = ((keysFinset md ch).card : Int)) →
      (∀ ch, keysFinset (calls.foldl MarkCall.apply md) ch
          = keysFinset md ch ∪ markedKeys calls ch) ∧
      (∀ ch, totalFilesOf (calls.foldl MarkCall.apply md) ch
          = ((keysFinset (calls.foldl MarkCall.apply md) ch).card : Int)) := by
  induction calls with
  | nil =>
    intro md hinv
    refine ⟨fun ch => ?_, hinv⟩
    simp [markedKeys]
  | cons c calls ih =>
    intro md hinv
    have hstep_inv : ∀ ch, totalFilesOf (MarkCall.apply md c) ch
        = ((keysFinset (MarkCall.apply md c) ch).card : Int) := by
      intro ch
      rw [totalFiles_apply, keysFinset_apply]
      by_cases h : c.channel = ch
      · rw [if_pos h, if_pos h, hinv ch]
        by_cases hmem : c.msgKey ∈ keysFinset md ch
        · rw [if_pos hmem, Finset.insert_eq_self.mpr hmem]
          ring
        · rw [if_neg hmem, Finset.card_insert_of_not_mem hmem]
          push_cast
          ring
      · rw [if_neg h, if_neg h]
        exact hinv ch
    obtain ⟨hk, hf⟩ := ih (MarkCall.apply md c) hstep_inv
    refine ⟨fun ch => ?_, by simpa [List.foldl_cons] using hf⟩
    rw [List.foldl_cons, hk ch, keysFinset_apply]
    by_cases h : c.channel = ch
    · rw [if_pos h]
      have hmk : markedKeys (c :: calls) ch = insert c.msgKey (markedKeys calls ch) := by
        unfold markedKeys
        rw [List.filter_cons]
        simp [h]
      rw [hmk, Finset.insert_union, Finset.union_insert]
    · rw [if_neg h]
      have hmk : markedKeys (c :: calls) ch = markedKeys calls ch := by
        unfold markedKeys
        rw [List.filter_cons]
        simp [h]
      rw [hmk]

/-- Invariant carried by completed-only call sequences: keys are
duplicate-free, every entry is `completed`, and `total_size` is the sum
of the recorded sizes. -/
def LedgerSizeInv (md : Metadata) : Prop :=
  ∀ ch rec, listLookup ch md = some rec →
    ((rec.messages.map Prod.fst).Nodup ∧
     (∀ p ∈ rec.messages, p.2.status = Status.completed) ∧
     rec.total_size = (rec.messages.map (fun p => p.2.file_size)).sum)

theorem sizeSum_dictErase (m : List (String × MessageEntry)) (k : String)
    (h : (m.map Prod.fst).Nodup) :
    ((dictErase k m).map (fun p => p.2.file_size)).sum
      = (m.map (fun p => p.2.file_size)).sum
        - (((listLookup k m).map (fun e => e.file_size)).getD 0) := by
  induction m with
  | nil => simp [dictErase, listLookup]
  | cons hd tl ih =>
    obtain ⟨k2, v⟩ := hd
    simp only [List.map_cons, List.nodup_cons] at h
    by_cases hk : k2 = k
    · subst hk
      rw [show dictErase k2 ((k2, v) :: tl) = dictErase k2 tl by simp [dictErase]]
      rw [dictErase_of_not_mem _ _ h.1]
      simp [listLookup]
    · rw [show dictErase k ((k2, v) :: tl) = (k2, v) :: dictErase k tl by simp [dictErase, hk]]
      rw [show listLookup k ((k2, v) :: tl) = listLookup k tl by simp [listLookup, hk]]
      simp only [List.map_cons, List.sum_cons, ih h.2]
      ring

theorem LedgerSizeInv_getD (md : Metadata) (ch : String) (hinv : LedgerSizeInv md) :
    ((((listLookup ch md).getD (freshChannel ch)).messages.map Prod.fst).Nodup ∧
     (∀ p ∈ ((listLookup ch md).getD (freshChannel ch)).messages,
        p.2.status = Status.completed) ∧
     ((listLookup ch md).getD (freshChannel ch)).total_size
       = (((listLookup ch md).getD (freshChannel ch)).messages.map
            (fun p => p.2.file_size)).sum) := by
  cases h : listLookup ch md with
  | none => simp [freshChannel]
  | some r => simpa using hinv ch r h

theorem LedgerSizeInv_mark_downloaded (md : Metadata) (id : Nat) (ch path : String)
    (size : Int) (q : Option Int) (now : String) (hinv : LedgerSizeInv md) :
    LedgerSizeInv (mark_file_as_downloaded md id ch path size q now) := by
  intro ch' rec h
  rw [mark_downloaded_eq] at h
  by_cases hch : ch = ch'
  · subst hch
    rw [listLookup_dictInsert_self] at h
    injection h with h
    subst h
    obtain ⟨hnd, hcomp, hsum⟩ := LedgerSizeInv_getD md ch hinv
    unfold markedDownRecord
    refine ⟨nodup_keys_dictInsert _ _ _ hnd, ?_, ?_⟩
    · intro p hp
      simp only [dictInsert, List.mem_cons] at hp
      rcases hp with he | hm
      · rw [he]
      · exact hcomp p (mem_dictErase _ _ _ hm)
    · simp only [dictInsert, List.map_cons, List.sum_cons]
      rw [show ((dictErase (toString id)
            ((listLookup ch md).getD (freshChannel ch)).messages).map
              (fun p => p.2.file_size)).sum
          = (((listLookup ch md).getD (freshChannel ch)).messages.map
              (fun p => p.2.file_size)).sum
            - (((listLookup (toString id)
                  ((listLookup ch md).getD (freshChannel ch)).messages).map
                (fun e => e.file_size)).getD 0) from sizeSum_dictErase _ _ hnd]
      rw [← hsum]
      by_cases hnew :
          (listLookup (toString id)
            ((listLookup ch md).getD (freshChannel ch)).messages).isNone
      · rw [if_pos hnew]
        rw [Option.isNone_iff_eq_none] at hnew
        rw [hnew]
        simp
        ring
      · rw [if_neg hnew]
        by_cases hsz :
            ((listLookup (toString id)
                ((listLookup ch md).getD (freshChannel ch)).messages).map
              (fun e => e.file_size)).getD 0 ≠ size
        · rw [if_pos hsz]
          ring
        · rw [if_neg hsz]
          push_neg at hsz
          rw [hsz]
          ring
  · rw [listLookup_dictInsert_ne _ _ (Ne.symm hch)] at h
    exact hinv ch' rec h

theorem applyCalls_size_inv (calls : List MarkCall) :
    ∀ md, LedgerSizeInv md → (∀ c ∈ calls, c.isDownloading = false) →
      LedgerSizeInv (calls.foldl MarkCall.apply md) := by
  induction calls with
  | nil => intro md h _; exact h
  | cons c calls ih =>
    intro md h hall
    rw [List.foldl_cons]
    refine ih _ ?_ (fun c' hc' => hall c' (List.mem_cons_of_mem _ hc'))
    cases c with
    | downloading id ch path size q now =>
        exact absurd (hall _ (List.mem_cons_self _ _)) (by simp [MarkCall.isDownloading])
    | downloaded id ch path size q now =>
        exact LedgerSizeInv_mark_downloaded md id ch path size q now h

theorem totalSize_mark_downloaded_delta (md : Metadata) (id : Nat) (ch path : String)
    (size : Int) (q : Option Int) (now : String) (rec : ChannelRecord)
    (e : MessageEntry) (h1 : listLookup ch md = some rec)
    (h2 : listLookup (toString id) rec.messages = some e) :
    totalSizeOf (mark_file_as_downloaded md id ch path size q now) ch
      = totalSizeOf md ch - e.file_size + size := by
  rw [mark_downloaded_eq]
  unfold totalSizeOf
  rw [listLookup_dictInsert_self]
  unfold markedDownRecord
  simp only [h1, Option.getD_some, h2, Option.map_some', Option.isNone_some,
    Bool.false_eq_true, if_false, Option.map_some]
  by_cases hsz : e.file_size ≠ size
  · rw [if_pos hsz]
  · rw [if_neg hsz]
    push_neg at hsz
    rw [hsz]
    ring

/-- The ledger after `mark_downloading(1, c, p, 100)` then
`mark_downloaded(1, c, p, 100)`. -/
def c2_md : Metadata :=
  mark_file_as_downloaded
    (mark_file_as_downloading [] 1 "c" "p" 100 none "t") 1 "c" "p" 100 none "t"

/-- Claim C2 is false as stated: marking item 1 as downloading with
expected size 100 and then completed with actual size 100 leaves
`total_size = 0` (the downloading mark never added the expected size,
and the completion's adjustment is skipped because old and new sizes
coincide), while the sum of the most recent completed sizes is 100. -/
theorem c2_counterexample :
    totalSizeOf c2_md "c" = 0 ∧
    ((listLookup "c" c2_md).map (fun r => completedSizeSum r.messages)) = some 100 := by
  constructor
  · decide
  · decide

/-- Claim C2, amended: `total_files` always equals the number of
distinct item identifiers ever marked for the channel; `total_size`
equals the sum of the most recent completed `file_size` per item for
sequences consisting of `mark_file_as_downloaded` calls only (the calls
the orchestrator actually issues) — with `mark_file_as_downloading`
calls in the mix the equality fails, because a downloading mark records
an expected size without adding it to `total_size` while a later
completion subtracts that recorded size; and the downloading→completed
transition always adjusts `total_size` by (new actual − old recorded)
size. -/
theorem c2_statistics_invariant :
    (∀ calls ch, totalFilesOf (applyCalls calls) ch = ((markedKeys calls ch).card : Int)) ∧
    (∀ calls, (∀ c ∈ calls, c.isDownloading = false) →
      ∀ ch rec, listLookup ch (applyCalls calls) = some rec →
        rec.total_size = completedSizeSum rec.messages) ∧
    (∀ (md : Metadata) (id : Nat) (ch path : String) (size : Int) (q : Option Int)
        (now : String) (rec : ChannelRecord) (e : MessageEntry),
      listLookup ch md = some rec →
      listLookup (toString id) rec.messages = some e →
      totalSizeOf (mark_file_as_downloaded md id ch path size q now) ch
        = totalSizeOf md ch - e.file_size + size) := by
  refine ⟨?_, ?_, totalSize_mark_downloaded_delta⟩
  · intro calls ch
    have hempty : ∀ ch', totalFilesOf ([] : Metadata) ch'
        = ((keysFinset ([] : Metadata) ch').card : Int) := by
      intro ch'
      simp [totalFilesOf, keysFinset, listLookup]
    have h := foldl_keys_files calls [] hempty
    rw [show applyCalls calls = calls.foldl MarkCall.apply [] from rfl, h.2 ch, h.1 ch]
    rw [show keysFinset ([] : Metadata) ch = ∅ by simp [keysFinset, listLookup],
      Finset.empty_union]
  · intro calls hall ch rec h
    have hstart : LedgerSizeInv ([] : Metadata) := by
      intro ch' rec' h'
      simp [listLookup] at h'
    obtain ⟨-, hcomp, hsum⟩ := applyCalls_size_inv calls [] hstart hall ch rec h
    rw [hsum]
    unfold completedSizeSum
    rw [List.filter_eq_self.mpr (fun p hp => by simpa using hcomp p hp)]

/-- The record built by a single completed mark of item 1 at size 5. -/
def c2w_rec : ChannelRecord :=
  { channel_name := "c"
    messages := [("1", { file_path := "p", file_size := 5, quality := none
                         status := Status.completed, timestamp := "t" })]
    total_files := 1
    total_size := 5
    last_updated := some "t" }

/-- The record and entry held by `c2_md`. -/
def c2w_entry : MessageEntry :=
  { file_path := "p", file_size := 100, quality := none
    status := Status.completed, timestamp := "t" }

def c2w_rec2 : ChannelRecord :=
  { channel_name := "c"
    messages := [("1", c2w_entry)]
    total_files := 1
    total_size := 0
    last_updated := some "t" }

/-- Witness for the amended C2 theorem at concrete inputs. -/
theorem c2_statistics_invariant_witness :
    c2w_rec.total_size = completedSizeSum c2w_rec.messages ∧
    totalSizeOf (mark_file_as_downloaded c2_md 1 "c" "p" 7 none "u") "c"
      = totalSizeOf c2_md "c" - 100 + 7 :=
  ⟨c2_statistics_invariant.2.1 [MarkCall.downloaded 1 "c" "p" 5 none "t"]
      (by intro c hc; simp only [List.mem_singleton] at hc; rw [hc]; rfl)
      "c" c2w_rec (by decide),
   c2_statistics_invariant.2.2 c2_md 1 "c" "p" 7 none "u" c2w_rec2 c2w_entry
      (by decide) (by decide)⟩

/-! ## Claim C1 -/

/-- The empty file system. -/
def emptyDisk : Disk := fun _ => none

/-- Fresh orchestrator state: empty ledger, empty disk, zero counters. -/
def dmState0 : DMState :=
  { metadata := [], disk := emptyDisk, downloaded_count := 0, skipped_count := 0
    failed_count := 0, total_size := 0 }

/-- Default configuration: `retry_attempts = 3`, targets `[360,480,720]`,
nearest enabled. -/
def cfg0 : DMConfig :=
  { download_path := "d", target_qualities := [360, 480, 720]
    download_nearest := true, retry_attempts := 3 }

/-- Transfer trace of the C1 scenario: two rate-limit signals, then one
generic transient failure, then success forever after. -/
def c1_env : Env :=
  { transfer := fun _ k =>
      if k = 0 ∨ k = 1 then TransferOutcome.floodWait 10
      else if k = 2 then TransferOutcome.failure
      else TransferOutcome.success 100
    poster := fun _ => none
    now := "t" }

/-- A message carrying a 480p video document. -/
def c1_msg : Message :=
  { id := 1, text := some "x"
    media := some (MediaPayload.document
      { attributes := [DocAttribute.video 480], size := 100, thumbs := false }) }

/-- Claim C1 identifies a genuine code bug.  The claim (and the source's
own comment «Не считаем это как попытку» — "we do not count this as an
attempt") says a rate-limit signal never consumes a retry attempt, so
with `retry_attempts = 3` and outcomes [FloodWait, FloodWait, failure,
success] the item should end DOWNLOADED.  But the `continue` issued on
`FloodWaitError` sits inside `for attempt in range(retry_attempts)` and
advances the loop variable: the two FloodWaits consume iterations 1 and
2, the generic failure is then the final attempt, and the item ends
FAILED — the fourth call, which would have succeeded, is never made. -/
theorem c1_floodwait_consumes_attempts :
    (download_video cfg0 c1_env dmState0 c1_msg "c").2 = false ∧
    (download_video cfg0 c1_env dmState0 c1_msg "c").1.failed_count = 1 ∧
    (download_video cfg0 c1_env dmState0 c1_msg "c").1.downloaded_count = 0 ∧
    c1_env.transfer 1 3 = TransferOutcome.success 100 := by
  refine ⟨by decide, by decide, by decide, by decide⟩

/-! ## Claim C5 -/

/-- Sum of the three per-item counters. -/
def countersSum (st : DMState) : Nat :=
  st.downloaded_count + st.skipped_count + st.failed_count

/-- A message with no media at all. -/
def c5_msg : Message := { id := 2, text := some "y", media := none }

/-- An environment whose every transfer succeeds with 42 bytes. -/
def env0 : Env :=
  { transfer := fun _ _ => TransferOutcome.success 42
    poster := fun _ => none, now := "t" }

/-- Claim C5 is false as stated: a message with no eligible media (the
claim says it terminates SKIPPED) returns from `download_video` without
incrementing any of the three counters — the `return False` after the
media check bypasses them all — so a batch containing such an item has
`downloaded + skipped + failed < n`. -/
theorem c5_counterexample :
    c5_msg.media = none ∧
    (download_video cfg0 env0 dmState0 c5_msg "c").2 = false ∧
    countersSum (download_video cfg0 env0 dmState0 c5_msg "c").1 = 0 ∧
    countersSum dmState0 + 1 = 1 := by
  refine ⟨rfl, by decide, by decide, rfl⟩

theorem download_description_frame (st : DMState) (msg : Message) (folder : String) :
    (download_description st msg folder).metadata = st.metadata ∧
    (download_description st msg folder).downloaded_count = st.downloaded_count ∧
    (download_description st msg folder).skipped_count = st.skipped_count ∧
    (download_description st msg folder).failed_count = st.failed_count ∧
    ∀ p, p ≠ folder ++ "/description.txt" →
      (download_description st msg folder).disk p = st.disk p := by
  simp only [download_description]
  refine ⟨?_, ?_, ?_, ?_, ?_⟩
  · split <;> rfl
  · split <;> rfl
  · split <;> rfl
  · split <;> rfl
  · intro p hp
    split
    · simp [writeDisk, hp]
    · rfl

theorem download_poster_frame (env : Env) (st : DMState) (msg : Message) (folder : String) :
    (download_poster env st msg folder).metadata = st.metadata ∧
    (download_poster env st msg folder).downloaded_count = st.downloaded_count ∧
    (download_poster env st msg folder).skipped_count = st.skipped_count ∧
    (download_poster env st msg folder).failed_count = st.failed_count ∧
    ∀ p, p ≠ folder ++ "/poster.jpg" →
      (download_poster env st msg folder).disk p = st.disk p := by
  simp only [download_poster]
  refine ⟨?_, ?_, ?_, ?_, ?_⟩
  · split <;> first | rfl | (split <;> rfl)
  · split <;> first | rfl | (split <;> rfl)
  · split <;> first | rfl | (split <;> rfl)
  · split <;> first | rfl | (split <;> rfl)
  · intro p hp
    split
    · simp [writeDisk, hp]
    · split
      · simp [writeDisk, hp]
      · rfl
    · rfl

/-- Counter bounds of the retry loop: `skipped` is never touched, and
`downloaded + failed` grows by at most one. -/
theorem run_attempts_counters (env : Env) (id : Nat) (ch fp : String)
    (q : Option Int) :
    ∀ (r k : Nat) (st : DMState),
      (run_attempts env id ch fp q st k r).1.skipped_count = st.skipped_count ∧
      st.downloaded_count ≤ (run_attempts env id ch fp q st k r).1.downloaded_count ∧
      st.failed_count ≤ (run_attempts env id ch fp q st k r).1.failed_count ∧
      (run_attempts env id ch fp q st k r).1.downloaded_count
          + (run_attempts env id ch fp q st k r).1.failed_count
        ≤ st.downloaded_count + st.failed_count + 1 := by
  intro r
  induction r with
  | zero =>
    intro k st
    exact ⟨rfl, le_refl _, le_refl _, Nat.le_succ _⟩
  | succ r ih =>
    intro k st
    cases he : env.transfer id k with
    | floodWait s =>
      have heq : run_attempts env id ch fp q st k (r + 1)
          = run_attempts env id ch fp q st (k + 1) r := by
        simp only [run_attempts, he]
      rw [heq]
      exact ih (k + 1) st
    | success size =>
      have heq : run_attempts env id ch fp q st k (r + 1)
          = ({ st with
                disk := writeDisk st.disk fp size
                metadata := mark_file_as_downloaded st.metadata id ch fp size q env.now
                total_size := st.total_size + size
                downloaded_count := st.downloaded_count + 1 }, true) := by
        simp only [run_attempts, he]
      rw [heq]
      refine ⟨rfl, ?_, ?_, ?_⟩ <;> (dsimp only; omega)
    | successNoFile =>
      by_cases hr : 0 < r
      · have heq : run_attempts env id ch fp q st k (r + 1)
            = run_attempts env id ch fp q st (k + 1) r := by
          simp only [run_attempts, he]
          rw [if_pos hr]
        rw [heq]
        exact ih (k + 1) st
      · have heq : run_attempts env id ch fp q st k (r + 1)
            = ({ st with failed_count := st.failed_count + 1 }, false) := by
          simp only [run_attempts, he]
          rw [if_neg hr]
        rw [heq]
        refine ⟨rfl, ?_, ?_, ?_⟩ <;> (dsimp only; omega)
    | failure =>
      by_cases hr : 0 < r
      · have heq : run_attempts env id ch fp q st k (r + 1)
            = run_attempts env id ch fp q st (k + 1) r := by
          simp only [run_attempts, he]
          rw [if_pos hr]
        rw [heq]
        exact ih (k + 1) st
      · have heq : run_attempts env id ch fp q st k (r + 1)
            = ({ st with failed_count := st.failed_count + 1 }, false) := by
          simp only [run_attempts, he]
          rw [if_neg hr]
        rw [heq]
        refine ⟨rfl, ?_, ?_, ?_⟩ <;> (dsimp only; omega)

/-- Without rate-limit signals, a loop that runs at least one iteration
settles the item: exactly one of `downloaded`/`failed` is incremented. -/
theorem run_attempts_sum_exact (env : Env) (id : Nat) (ch fp : String)
    (q : Option Int) (hnf : ∀ k s, env.transfer id k ≠ TransferOutcome.floodWait s) :
    ∀ (r k : Nat) (st : DMState), 1 ≤ r →
      countersSum (run_attempts env id ch fp q st k r).1 = countersSum st + 1 := by
  intro r
  induction r with
  | zero => intro k st h; omega
  | succ r ih =>
    intro k st _
    cases he : env.transfer id k with
    | floodWait s => exact absurd he (hnf k s)
    | success size =>
      have heq : run_attempts env id ch fp q st k (r + 1)
          = ({ st with
                disk := writeDisk st.disk fp size
                metadata := mark_file_as_downloaded st.metadata id ch fp size q env.now
                total_size := st.total_size + size
                downloaded_count := st.downloaded_count + 1 }, true) := by
        simp only [run_attempts, he]
      rw [heq]
      dsimp only [countersSum]
      omega
    | successNoFile =>
      by_cases hr : 0 < r
      · have heq : run_attempts env id ch fp q st k (r + 1)
            = run_attempts env id ch fp q st (k + 1) r := by
          simp only [run_attempts, he]
          rw [if_pos hr]
        rw [heq]
        exact ih (k + 1) st hr
      · have heq : run_attempts env id ch fp q st k (r + 1)
            = ({ st with failed_count := st.failed_count + 1 }, false) := by
          simp only [run_attempts, he]
          rw [if_neg hr]
        rw [heq]
        dsimp only [countersSum]
        omega
    | failure =>
      by_cases hr : 0 < r
      · have heq : run_attempts env id ch fp q st k (r + 1)
            = run_attempts env id ch fp q st (k + 1) r := by
          simp only [run_attempts, he]
          rw [if_pos hr]
        rw [heq]
        exact ih (k + 1) st hr
      · have heq : run_attempts env id ch fp q st k (r + 1)
            = ({ st with failed_count := st.failed_count + 1 }, false) := by
          simp only [run_attempts, he]
          rw [if_neg hr]
        rw [heq]
        dsimp only [countersSum]
        omega

theorem fetch_side_artifacts_frame (env : Env) (st : DMState) (msg : Message)
    (folder : String) :
    (fetch_side_artifacts env st msg folder).metadata = st.metadata ∧
    (fetch_side_artifacts env st msg folder).downloaded_count = st.downloaded_count ∧
    (fetch_side_artifacts env st msg folder).skipped_count = st.skipped_count ∧
    (fetch_side_artifacts env st msg folder).failed_count = st.failed_count ∧
    ∀ p, p ≠ folder ++ "/description.txt" → p ≠ folder ++ "/poster.jpg" →
      (fetch_side_artifacts env st msg folder).disk p = st.disk p := by
  unfold fetch_side_artifacts
  have hd := download_description_frame st msg folder
  by_cases h1 : (st.disk (folder ++ "/description.txt")).isSome
  · rw [if_pos h1]
    by_cases h2 : (st.disk (folder ++ "/poster.jpg")).isSome
    · rw [if_pos h2]
      exact ⟨rfl, rfl, rfl, rfl, fun p _ _ => rfl⟩
    · rw [if_neg h2]
      have hp := download_poster_frame env st msg folder
      exact ⟨hp.1, hp.2.1, hp.2.2.1, hp.2.2.2.1, fun p _ hpo => hp.2.2.2.2 p hpo⟩
  · rw [if_neg h1]
    have hp := download_poster_frame env (download_description st msg folder) msg folder
    by_cases h2 : ((download_description st msg folder).disk (folder ++ "/poster.jpg")).isSome
    · rw [if_pos h2]
      exact ⟨hd.1, hd.2.1, hd.2.2.1, hd.2.2.2.1,
        fun p hde _ => hd.2.2.2.2 p hde⟩
    · rw [if_neg h2]
      refine ⟨hp.1.trans hd.1, hp.2.1.trans hd.2.1, hp.2.2.1.trans hd.2.2.1,
        hp.2.2.2.1.trans hd.2.2.2.1, fun p hde hpo => ?_⟩
      rw [hp.2.2.2.2 p hpo, hd.2.2.2.2 p hde]

theorem countersSum_fetch_side_artifacts (env : Env) (st : DMState) (msg : Message)
    (folder : String) :
    countersSum (fetch_side_artifacts env st msg folder) = countersSum st := by
  have h := fetch_side_artifacts_frame env st msg folder
  unfold countersSum
  rw [h.2.1, h.2.2.1, h.2.2.2.1]

/-- Per-call counter bounds: every `download_video` call increments the
three counters' sum by zero or one. -/
theorem download_video_sum_bounds (cfg : DMConfig) (env : Env) (st : DMState)
    (msg : Message) (ch : String) :
    countersSum st ≤ countersSum (download_video cfg env st msg ch).1 ∧
    countersSum (download_video cfg env st msg ch).1 ≤ countersSum st + 1 := by
  unfold download_video
  by_cases hdl : is_file_downloaded st.disk st.metadata msg.id ch = true
  · rw [if_pos hdl]
    constructor <;> (dsimp only [countersSum]; omega)
  · rw [if_neg hdl]
    cases hm : msg.media with
    | none => constructor <;> (dsimp only [countersSum]; omega)
    | some payload =>
      cases payload with
      | photo => constructor <;> (dsimp only [countersSum]; omega)
      | other => constructor <;> (dsimp only [countersSum]; omega)
      | document d =>
        dsimp only
        by_cases hq : (should_download_video cfg.target_qualities cfg.download_nearest d).1 = false
        · rw [if_pos hq]
          constructor <;> (dsimp only [countersSum]; omega)
        · rw [if_neg hq]
          have hf := fetch_side_artifacts_frame env st msg
            (get_series_folder_path cfg.download_path ch (get_series_name msg))
          obtain ⟨-, hf1, hf2, hf3, -⟩ := hf
          by_cases hex : ((fetch_side_artifacts env st msg
              (get_series_folder_path cfg.download_path ch (get_series_name msg))).disk
              (get_series_folder_path cfg.download_path ch (get_series_name msg) ++ "/"
                ++ get_file_name (get_series_name msg)
                  (should_download_video cfg.target_qualities cfg.download_nearest d).2)).isSome
              = true
          · rw [if_pos hex]
            constructor <;> (dsimp only [countersSum]; omega)
          · rw [if_neg hex]
            obtain ⟨hb1, hb2, hb3, hb4⟩ := run_attempts_counters env msg.id ch
              (get_series_folder_path cfg.download_path ch (get_series_name msg) ++ "/"
                ++ get_file_name (get_series_name msg)
                  (should_download_video cfg.target_qualities cfg.download_nearest d).2)
              (should_download_video cfg.target_qualities cfg.download_nearest d).2
              cfg.retry_attempts 0
              (fetch_side_artifacts env st msg
                (get_series_folder_path cfg.download_path ch (get_series_name msg)))
            constructor <;> (dsimp only [countersSum]; omega)

/-- Per-call exactness: with document media, at least one attempt, and
no rate-limit signals, exactly one counter is incremented. -/
theorem download_video_sum_exact (cfg : DMConfig) (env : Env) (st : DMState)
    (msg : Message) (ch : String) (d : Document)
    (hm : msg.media = some (MediaPayload.document d))
    (hr : 1 ≤ cfg.retry_attempts)
    (hnf : ∀ k s, env.transfer msg.id k ≠ TransferOutcome.floodWait s) :
    countersSum (download_video cfg env st msg ch).1 = countersSum st + 1 := by
  unfold download_video
  by_cases hdl : is_file_downloaded st.disk st.metadata msg.id ch = true
  · rw [if_pos hdl]
    dsimp only [countersSum]
    omega
  · rw [if_neg hdl]
    simp only [hm]
    by_cases hq : (should_download_video cfg.target_qualities cfg.download_nearest d).1 = false
    · rw [if_pos hq]
      dsimp only [countersSum]
      omega
    · rw [if_neg hq]
      have hf := fetch_side_artifacts_frame env st msg
        (get_series_folder_path cfg.download_path ch (get_series_name msg))
      obtain ⟨-, hf1, hf2, hf3, -⟩ := hf
      by_cases hex : ((fetch_side_artifacts env st msg
          (get_series_folder_path cfg.download_path ch (get_series_name msg))).disk
          (get_series_folder_path cfg.download_path ch (get_series_name msg) ++ "/"
            ++ get_file_name (get_series_name msg)
              (should_download_video cfg.target_qualities cfg.download_nearest d).2)).isSome
          = true
      · rw [if_pos hex]
        dsimp only [countersSum]
        omega
      · rw [if_neg hex]
        have hrun := run_attempts_sum_exact env msg.id ch
          (get_series_folder_path cfg.download_path ch (get_series_name msg) ++ "/"
            ++ get_file_name (get_series_name msg)
              (should_download_video cfg.target_qualities cfg.download_nearest d).2)
          (should_download_video cfg.target_qualities cfg.download_nearest d).2
          hnf cfg.retry_attempts 0
          (fetch_side_artifacts env st msg
            (get_series_folder_path cfg.download_path ch (get_series_name msg))) hr
        rw [hrun]
        dsimp only [countersSum]
        omega

/-- Folding `download_video` over messages that all carry document media,
with at least one attempt and no rate-limit signals, adds exactly the
list length to the counters' sum. -/
theorem foldl_download_video_sum (cfg : DMConfig) (env : Env) (ch : String) :
    ∀ (msgs : List Message) (st : DMState),
      (∀ m ∈ msgs, ∃ d, m.media = some (MediaPayload.document d)) →
      1 ≤ cfg.retry_attempts →
      (∀ m ∈ msgs, ∀ k s, env.transfer m.id k ≠ TransferOutcome.floodWait s) →
      countersSum (msgs.foldl (fun s m => (download_video cfg env s m ch).1) st)
        = countersSum st + msgs.length := by
  intro msgs
  induction msgs with
  | nil => intro st _ _ _; simp
  | cons m msgs ih =>
    intro st hall hr hnf
    obtain ⟨d, hd⟩ := hall m (List.mem_cons_self _ _)
    rw [List.foldl_cons,
      ih _ (fun m' hm' => hall m' (List.mem_cons_of_mem _ hm')) hr
        (fun m' hm' => hnf m' (List.mem_cons_of_mem _ hm')),
      download_video_sum_exact cfg env st m ch d hd hr
        (hnf m (List.mem_cons_self _ _))]
    simp only [List.length_cons]
    omega

/-- Claim C5, amended: every `download_video` call increments the sum
`downloaded + skipped + failed` by at most one; it increments it by
exactly one whenever the message carries document media, the retry
budget allows at least one attempt, and the transfer raises no
rate-limit signal — in particular a batch of `n` such items ends with
`downloaded + skipped + failed = n`.  Items whose message carries no
eligible media (and retry loops whose every iteration ends in a
rate-limit signal) return without touching any counter, so the claim's
unconditional "exactly one" fails for them. -/
theorem c5_each_call_counts_at_most_once :
    (∀ (cfg : DMConfig) (env : Env) (st : DMState) (msg : Message) (ch : String),
      countersSum st ≤ countersSum (download_video cfg env st msg ch).1 ∧
      countersSum (download_video cfg env st msg ch).1 ≤ countersSum st + 1) ∧
    (∀ (cfg : DMConfig) (env : Env) (st : DMState) (msg : Message) (ch : String)
        (d : Document),
      msg.media = some (MediaPayload.document d) →
      1 ≤ cfg.retry_attempts →
      (∀ k s, env.transfer msg.id k ≠ TransferOutcome.floodWait s) →
      countersSum (download_video cfg env st msg ch).1 = countersSum st + 1) ∧
    (∀ (cfg : DMConfig) (env : Env) (st : DMState) (msgs : List Message) (ch : String),
      countersSum st = 0 →
      (∀ m ∈ msgs, ∃ d, m.media = some (MediaPayload.document d)) →
      1 ≤ cfg.retry_attempts →
      (∀ m ∈ msgs, ∀ k s, env.transfer m.id k ≠ TransferOutcome.floodWait s) →
      (download_batch cfg env st msgs ch).2.1
        + (download_batch cfg env st msgs ch).2.2.1
        + (download_batch cfg env st msgs ch).2.2.2.1 = msgs.length) := by
  refine ⟨download_video_sum_bounds, download_video_sum_exact, ?_⟩
  intro cfg env st msgs ch hz hall hr hnf
  cases msgs with
  | nil => rfl
  | cons m msgs =>
    have hfold := foldl_download_video_sum cfg env ch (m :: msgs) st hall hr hnf
    unfold download_batch
    rw [if_neg (by simp)]
    dsimp only
    unfold countersSum at hfold hz
    omega

/-- Witness for the amended C5 theorem: a one-item batch with a
document-media message and an always-successful transfer yields
`downloaded + skipped + failed = 1`. -/
theorem c5_each_call_counts_witness :
    (download_batch cfg0 env0 dmState0 [c1_msg] "c").2.1
      + (download_batch cfg0 env0 dmState0 [c1_msg] "c").2.2.1
      + (download_batch cfg0 env0 dmState0 [c1_msg] "c").2.2.2.1 = 1 :=
  c5_each_call_counts_at_most_once.2.2 cfg0 env0 dmState0 [c1_msg] "c" rfl
    (fun m hm => by
      rw [List.mem_singleton] at hm
      exact ⟨_, by rw [hm]; rfl⟩)
    (by decide)
    (fun m _ k s h => by
      simp only [env0] at h
      exact TransferOutcome.noConfusion h)

/-! ## Claim C10 -/

/-- Last character of a string. -/
def strLast (s : String) : Option Char := s.toList.getLast?

theorem strLast_append (a b : String) (h : b.toList ≠ []) :
    strLast (a ++ b) = strLast b := by
  unfold strLast
  rw [show (a ++ b).toList = a.toList ++ b.toList by simp [String.toList]]
  exact List.getLast?_append_of_ne_nil _ h

theorem toList_ne_nil_of_strLast {s : String} {c : Char}
    (h : strLast s = some c) : s.toList ≠ [] := by
  intro hn
  rw [strLast, hn] at h
  cases h

/-- Every file name built by `_get_file_name` ends in `4` (it always
ends in `.mp4`). -/
theorem strLast_get_file_name (series : String) (q : Option Int) :
    strLast (get_file_name series q) = some '4' := by
  unfold get_file_name
  cases q with
  | none =>
    rw [strLast_append _ _ (by decide)]
    decide
  | some qv =>
    dsimp only
    by_cases hq : qv ≠ 0
    · rw [if_pos hq, strLast_append _ _ (by decide)]
      decide
    · rw [if_neg hq, strLast_append _ _ (by decide)]
      decide

theorem strLast_description (folder : String) :
    strLast (folder ++ "/description.txt") = some 't' := by
  rw [strLast_append _ _ (by decide)]
  decide

theorem strLast_poster (folder : String) :
    strLast (folder ++ "/poster.jpg") = some 'g' := by
  rw [strLast_append _ _ (by decide)]
  decide

/-- The side-artifact step never touches a path ending in `4` — in
particular no `.mp4` destination. -/
theorem fetch_side_artifacts_disk_mp4 (env : Env) (st : DMState) (msg : Message)
    (folder p : String) (hp : strLast p = some '4') :
    (fetch_side_artifacts env st msg folder).disk p = st.disk p := by
  refine (fetch_side_artifacts_frame env st msg folder).2.2.2.2 p ?_ ?_
  · intro he
    rw [he, strLast_description] at hp
    cases hp
  · intro he
    rw [he, strLast_poster] at hp
    cases hp

/-- Claim C10: when the resolved destination file already exists on disk
at the PREPARE step (the item passed dedup and quality), `download_video`
terminates SKIPPED with no ledger mutation: the metadata is untouched,
`skipped` is incremented, `downloaded`/`failed` are not, and the call
returns `False` — so a file present on disk but absent from the ledger
is never re-downloaded and never becomes recorded in the ledger. -/
theorem c10_existing_destination_skips (cfg : DMConfig) (env : Env) (st : DMState)
    (msg : Message) (ch : String) (d : Document) (sz : Int)
    (hm : msg.media = some (MediaPayload.document d))
    (hdl : is_file_downloaded st.disk st.metadata msg.id ch = false)
    (hq : (should_download_video cfg.target_qualities cfg.download_nearest d).1 = true)
    (hex : st.disk (resolvedFilePath cfg ch msg) = some sz) :
    (download_video cfg env st msg ch).2 = false ∧
    (download_video cfg env st msg ch).1.metadata = st.metadata ∧
    (download_video cfg env st msg ch).1.skipped_count = st.skipped_count + 1 ∧
    (download_video cfg env st msg ch).1.downloaded_count = st.downloaded_count ∧
    (download_video cfg env st msg ch).1.failed_count = st.failed_count := by
  have hres : resolvedFilePath cfg ch msg
      = get_series_folder_path cfg.download_path ch (get_series_name msg) ++ "/"
        ++ get_file_name (get_series_name msg)
            (should_download_video cfg.target_qualities cfg.download_nearest d).2 := by
    unfold resolvedFilePath
    rw [hm]
  rw [hres] at hex
  have h4 : strLast (get_series_folder_path cfg.download_path ch (get_series_name msg)
      ++ "/" ++ get_file_name (get_series_name msg)
        (should_download_video cfg.target_qualities cfg.download_nearest d).2)
      = some '4' := by
    rw [strLast_append _ _
          (toList_ne_nil_of_strLast (strLast_get_file_name (get_series_name msg) _)),
      strLast_get_file_name]
  have hfd : (fetch_side_artifacts env st msg
      (get_series_folder_path cfg.download_path ch (get_series_name msg))).disk
      (get_series_folder_path cfg.download_path ch (get_series_name msg) ++ "/"
        ++ get_file_name (get_series_name msg)
          (should_download_video cfg.target_qualities cfg.download_nearest d).2)
      = some sz := by
    rw [fetch_side_artifacts_disk_mp4 _ _ _ _ _ h4]
    exact hex
  have hff := fetch_side_artifacts_frame env st msg
    (get_series_folder_path cfg.download_path ch (get_series_name msg))
  unfold download_video
  rw [if_neg (by simp [hdl])]
  simp only [hm]
  rw [if_neg (by simp [hq])]
  rw [if_pos (by rw [hfd]; rfl)]
  exact ⟨rfl, hff.1, by rw [hff.2.2.1], hff.2.1, hff.2.2.2.1⟩

/-- The document carried by `c1_msg`. -/
def c10_doc : Document :=
  { attributes := [DocAttribute.video 480], size := 100, thumbs := false }

/-- The destination `download_video` resolves for `c1_msg`. -/
def c10_path : String := resolvedFilePath cfg0 "c" c1_msg

/-- Initial state whose disk already holds a 7-byte file at the
destination, with an empty ledger. -/
def c10_st : DMState :=
  { metadata := [], disk := fun p => if p = c10_path then some 7 else none
    downloaded_count := 0, skipped_count := 0, failed_count := 0, total_size := 0 }

/-- Witness for C10 at a concrete input. -/
theorem c10_existing_destination_skips_witness :
    (download_video cfg0 env0 c10_st c1_msg "c").1.metadata = ([] : Metadata) ∧
    (download_video cfg0 env0 c10_st c1_msg "c").1.skipped_count = 1 :=
  have h := c10_existing_destination_skips cfg0 env0 c10_st c1_msg "c" c10_doc 7
    rfl (by decide) (by decide) (by decide)
  ⟨h.2.1, h.2.2.1⟩

/-! ## Claim C6 -/

theorem strLast_resolvedFilePath (cfg : DMConfig) (ch : String) (m : Message)
    (d : Document) (hm : m.media = some (MediaPayload.document d)) :
    strLast (resolvedFilePath cfg ch m) = some '4' := by
  unfold resolvedFilePath
  rw [hm]
  dsimp only
  rw [strLast_append _ _
        (toList_ne_nil_of_strLast (strLast_get_file_name (get_series_name m) _)),
    strLast_get_file_name]

/-- After a successful first-run download of `m`, the state supports a
skip on any later run: the message has accepted document media, the
ledger entry for it records the resolved destination with the on-disk
size, and the destination file is present. -/
def GoodItem (cfg : DMConfig) (ch : String) (st : DMState) (m : Message) : Prop :=
  ∃ d, m.media = some (MediaPayload.document d) ∧
    (should_download_video cfg.target_qualities cfg.download_nearest d).1 = true ∧
    ∃ rec e, listLookup ch st.metadata = some rec ∧
      listLookup (toString m.id) rec.messages = some e ∧
      e.file_path = resolvedFilePath cfg ch m ∧
      st.disk e.file_path = some e.file_size

/-- Dedup hit: the very first check short-circuits to SKIPPED. -/
theorem download_video_dedup_skip (cfg : DMConfig) (env : Env) (st : DMState)
    (m : Message) (ch : String)
    (hdl : is_file_downloaded st.disk st.metadata m.id ch = true) :
    download_video cfg env st m ch
      = ({ st with skipped_count := st.skipped_count + 1 }, false) := by
  unfold download_video
  rw [if_pos hdl]

/-- A `GoodItem` is always skipped: either the dedup check fires, or
(when the recorded size is not positive) the destination-exists check
fires; in both cases the ledger is untouched, `skipped` is incremented,
and any `.mp4` path on disk is untouched. -/
theorem download_video_skip_of_good (cfg : DMConfig) (env : Env) (st : DMState)
    (m : Message) (ch : String) (hg : GoodItem cfg ch st m) :
    (download_video cfg env st m ch).2 = false ∧
    (download_video cfg env st m ch).1.metadata = st.metadata ∧
    (download_video cfg env st m ch).1.skipped_count = st.skipped_count + 1 ∧
    (download_video cfg env st m ch).1.downloaded_count = st.downloaded_count ∧
    (download_video cfg env st m ch).1.failed_count = st.failed_count ∧
    ∀ p, strLast p = some '4' → (download_video cfg env st m ch).1.disk p = st.disk p := by
  obtain ⟨d, hm, hq, rec, e, hrec, he, hpath, hdisk⟩ := hg
  by_cases hdl : is_file_downloaded st.disk st.metadata m.id ch = true
  · rw [download_video_dedup_skip cfg env st m ch hdl]
    exact ⟨rfl, rfl, rfl, rfl, rfl, fun p _ => rfl⟩
  · have hres : resolvedFilePath cfg ch m
        = get_series_folder_path cfg.download_path ch (get_series_name m) ++ "/"
          ++ get_file_name (get_series_name m)
              (should_download_video cfg.target_qualities cfg.download_nearest d).2 := by
      unfold resolvedFilePath
      rw [hm]
    have h4 : strLast (resolvedFilePath cfg ch m) = some '4' :=
      strLast_resolvedFilePath cfg ch m d hm
    have hfd : (fetch_side_artifacts env st m
        (get_series_folder_path cfg.download_path ch (get_series_name m))).disk
        (get_series_folder_path cfg.download_path ch (get_series_name m) ++ "/"
          ++ get_file_name (get_series_name m)
            (should_download_video cfg.target_qualities cfg.download_nearest d).2)
        = some e.file_size := by
      rw [← hres, fetch_side_artifacts_disk_mp4 _ _ _ _ _ h4, ← hpath]
      exact hdisk
    have hff := fetch_side_artifacts_frame env st m
      (get_series_folder_path cfg.download_path ch (get_series_name m))
    unfold download_video
    rw [if_neg (by simp [Bool.not_eq_true] at hdl; simp [hdl])]
    simp only [hm]
    rw [if_neg (by simp [hq])]
    rw [if_pos (by rw [hfd]; rfl)]
    refine ⟨rfl, hff.1, by rw [hff.2.2.1], hff.2.1, hff.2.2.2.1, fun p hp => ?_⟩
    exact fetch_side_artifacts_disk_mp4 env st m _ p hp

/-- `GoodItem` only depends on the ledger and on `.mp4` disk paths. -/
theorem GoodItem_preserved (cfg : DMConfig) (ch : String) (st st' : DMState)
    (m : Message) (hmeta : st'.metadata = st.metadata)
    (hdisk : ∀ p, strLast p = some '4' → st'.disk p = st.disk p)
    (hg : GoodItem cfg ch st m) : GoodItem cfg ch st' m := by
  obtain ⟨d, hm, hq, rec, e, hrec, he, hpath, hd⟩ := hg
  refine ⟨d, hm, hq, rec, e, by rw [hmeta]; exact hrec, he, hpath, ?_⟩
  rw [hdisk e.file_path (by rw [hpath]; exact strLast_resolvedFilePath cfg ch m d hm)]
  exact hd

/-- Second-run fold: a batch of `GoodItem`s only increments `skipped`. -/
theorem foldl_skip_of_good (cfg : DMConfig) (env : Env) (ch : String) :
    ∀ (l : List Message) (st : DMState),
      (∀ m ∈ l, GoodItem cfg ch st m) →
      (l.foldl (fun s m => (download_video cfg env s m ch).1) st).metadata = st.metadata ∧
      (l.foldl (fun s m => (download_video cfg env s m ch).1) st).skipped_count
        = st.skipped_count + l.length ∧
      (l.foldl (fun s m => (download_video cfg env s m ch).1) st).downloaded_count
        = st.downloaded_count ∧
      (l.foldl (fun s m => (download_video cfg env s m ch).1) st).failed_count
        = st.failed_count ∧
      ∀ p, strLast p = some '4' →
        (l.foldl (fun s m => (download_video cfg env s m ch).1) st).disk p = st.disk p := by
  intro l
  induction l with
  | nil => intro st _; exact ⟨rfl, rfl, rfl, rfl, fun p _ => rfl⟩
  | cons m l ih =>
    intro st hall
    obtain ⟨hb, hmeta, hskip, hdown, hfail, hdisk⟩ :=
      download_video_skip_of_good cfg env st m ch (hall m (List.mem_cons_self _ _))
    have hall' : ∀ m' ∈ l, GoodItem cfg ch (download_video cfg env st m ch).1 m' :=
      fun m' hm' => GoodItem_preserved cfg ch st _ m' hmeta hdisk
        (hall m' (List.mem_cons_of_mem _ hm'))
    obtain ⟨ih1, ih2, ih3, ih4, ih5⟩ := ih (download_video cfg env st m ch).1 hall'
    rw [List.foldl_cons]
    refine ⟨ih1.trans hmeta, ?_, ih3.trans hdown, ih4.trans hfail, fun p hp => ?_⟩
    · rw [ih2, hskip, List.length_cons]
      omega
    · rw [ih5 p hp, hdisk p hp]

/-- A retry loop that reports success is a single successful transfer:
the destination was written with some size, which was recorded in the
ledger, and `downloaded` was incremented. -/
theorem run_attempts_true_characterisation (env : Env) (id : Nat) (ch fp : String)
    (q : Option Int) :
    ∀ (r k : Nat) (st : DMState),
      (run_attempts env id ch fp q st k r).2 = true →
      ∃ size, run_attempts env id ch fp q st k r
        = ({ st with
              disk := writeDisk st.disk fp size
              metadata := mark_file_as_downloaded st.metadata id ch fp size q env.now
              total_size := st.total_size + size
              downloaded_count := st.downloaded_count + 1 }, true) := by
  intro r
  induction r with
  | zero =>
    intro k st hb
    rw [show run_attempts env id ch fp q st k 0 = (st, false) from rfl] at hb
    cases hb
  | succ r ih =>
    intro k st hb
    cases he : env.transfer id k with
    | floodWait s =>
      have heq : run_attempts env id ch fp q st k (r + 1)
          = run_attempts env id ch fp q st (k + 1) r := by
        simp only [run_attempts, he]
      rw [heq] at hb ⊢
      exact ih (k + 1) st hb
    | success size =>
      have heq : run_attempts env id ch fp q st k (r + 1)
          = ({ st with
                disk := writeDisk st.disk fp size
                metadata := mark_file_as_downloaded st.metadata id ch fp size q env.now
                total_size := st.total_size + size
                downloaded_count := st.downloaded_count + 1 }, true) := by
        simp only [run_attempts, he]
      exact ⟨size, heq⟩
    | successNoFile =>
      by_cases hr : 0 < r
      · have heq : run_attempts env id ch fp q st k (r + 1)
            = run_attempts env id ch fp q st (k + 1) r := by
          simp only [run_attempts, he]
          rw [if_pos hr]
        rw [heq] at hb ⊢
        exact ih (k + 1) st hb
      · have heq : run_attempts env id ch fp q st k (r + 1)
            = ({ st with failed_count := st.failed_count + 1 }, false) := by
          simp only [run_attempts, he]
          rw [if_neg hr]
        rw [heq] at hb
        cases hb
    | failure =>
      by_cases hr : 0 < r
      · have heq : run_attempts env id ch fp q st k (r + 1)
            = run_attempts env id ch fp q st (k + 1) r := by
          simp only [run_attempts, he]
          rw [if_pos hr]
        rw [heq] at hb ⊢
        exact ih (k + 1) st hb
      · have heq : run_attempts env id ch fp q st k (r + 1)
            = ({ st with failed_count := st.failed_count + 1 }, false) := by
          simp only [run_attempts, he]
          rw [if_neg hr]
        rw [heq] at hb
        cases hb

/-- `downloaded_count` is incremented precisely when the loop reports
success. -/
theorem run_attempts_downloaded_flag (env : Env) (id : Nat) (ch fp : String)
    (q : Option Int) :
    ∀ (r k : Nat) (st : DMState),
      (run_attempts env id ch fp q st k r).1.downloaded_count
        = st.downloaded_count
          + (if (run_attempts env id ch fp q st k r).2 then 1 else 0) := by
  intro r
  induction r with
  | zero =>
    intro k st
    rw [show run_attempts env id ch fp q st k 0 = (st, false) from rfl]
    rfl
  | succ r ih =>
    intro k st
    cases he : env.transfer id k with
    | floodWait s =>
      have heq : run_attempts env id ch fp q st k (r + 1)
          = run_attempts env id ch fp q st (k + 1) r := by
        simp only [run_attempts, he]
      rw [heq]
      exact ih (k + 1) st
    | success size =>
      have heq : run_attempts env id ch fp q st k (r + 1)
          = ({ st with
                disk := writeDisk st.disk fp size
                metadata := mark_file_as_downloaded st.metadata id ch fp size q env.now
                total_size := st.total_size + size
                downloaded_count := st.downloaded_count + 1 }, true) := by
        simp only [run_attempts, he]
      rw [heq]
      rfl
    | successNoFile =>
      by_cases hr : 0 < r
      · have heq : run_attempts env id ch fp q st k (r + 1)
            = run_attempts env id ch fp q st (k + 1) r := by
          simp only [run_attempts, he]
          rw [if_pos hr]
        rw [heq]
        exact ih (k + 1) st
      · have heq : run_attempts env id ch fp q st k (r + 1)
            = ({ st with failed_count := st.failed_count + 1 }, false) := by
          simp only [run_attempts, he]
          rw [if_neg hr]
        rw [heq]
        rfl
    | failure =>
      by_cases hr : 0 < r
      · have heq : run_attempts env id ch fp q st k (r + 1)
            = run_attempts env id ch fp q st (k + 1) r := by
          simp only [run_attempts, he]
          rw [if_pos hr]
        rw [heq]
        exact ih (k + 1) st
      · have heq : run_attempts env id ch fp q st k (r + 1)
            = ({ st with failed_count := st.failed_count + 1 }, false) := by
          simp only [run_attempts, he]
          rw [if_neg hr]
        rw [heq]
        rfl

/-- `download_video` increments `downloaded_count` exactly when it
returns `True`. -/
theorem download_video_downloaded_flag (cfg : DMConfig) (env : Env) (st : DMState)
    (msg : Message) (ch : String) :
    (download_video cfg env st msg ch).1.downloaded_count
      = st.downloaded_count
        + (if (download_video cfg env st msg ch).2 then 1 else 0) := by
  unfold download_video
  by_cases hdl : is_file_downloaded st.disk st.metadata msg.id ch = true
  · rw [if_pos hdl]
    rfl
  · rw [if_neg hdl]
    cases hm : msg.media with
    | none => rfl
    | some payload =>
      cases payload with
      | photo => rfl
      | other => rfl
      | document d =>
        dsimp only
        by_cases hq : (should_download_video cfg.target_qualities cfg.download_nearest d).1 = false
        · rw [if_pos hq]
          rfl
        · rw [if_neg hq]
          have hf := (fetch_side_artifacts_frame env st msg
            (get_series_folder_path cfg.download_path ch (get_series_name msg))).2.1
          by_cases hex : ((fetch_side_artifacts env st msg
              (get_series_folder_path cfg.download_path ch (get_series_name msg))).disk
              (get_series_folder_path cfg.download_path ch (get_series_name msg) ++ "/"
                ++ get_file_name (get_series_name msg)
                  (should_download_video cfg.target_qualities cfg.download_nearest d).2)).isSome
              = true
          · rw [if_pos hex]
            dsimp only
            rw [hf]
            simp
          · rw [if_neg hex]
            rw [run_attempts_downloaded_flag, hf]

/-- A `download_video` call that returns `True` went through the full
success path: document media, quality accepted, destination absent, one
successful transfer written to disk and recorded in the ledger. -/
theorem download_video_true_characterisation (cfg : DMConfig) (env : Env)
    (st : DMState) (msg : Message) (ch : String)
    (hb : (download_video cfg env st msg ch).2 = true) :
    ∃ d size,
      msg.media = some (MediaPayload.document d) ∧
      (should_download_video cfg.target_qualities cfg.download_nearest d).1 = true ∧
      (fetch_side_artifacts env st msg
          (get_series_folder_path cfg.download_path ch (get_series_name msg))).disk
          (get_series_folder_path cfg.download_path ch (get_series_name msg) ++ "/"
            ++ get_file_name (get_series_name msg)
              (should_download_video cfg.target_qualities cfg.download_nearest d).2)
        = none ∧
      download_video cfg env st msg ch
        = (let fs := fetch_side_artifacts env st msg
              (get_series_folder_path cfg.download_path ch (get_series_name msg))
           let fp := get_series_folder_path cfg.download_path ch (get_series_name msg)
              ++ "/" ++ get_file_name (get_series_name msg)
                (should_download_video cfg.target_qualities cfg.download_nearest d).2
           ({ fs with
               disk := writeDisk fs.disk fp size
               metadata := mark_file_as_downloaded fs.metadata msg.id ch fp size
                 (should_download_video cfg.target_qualities cfg.download_nearest d).2
                 env.now
               total_size := fs.total_size + size
               downloaded_count := fs.downloaded_count + 1 }, true)) := by
  unfold download_video at hb ⊢
  by_cases hdl : is_file_downloaded st.disk st.metadata msg.id ch = true
  · rw [if_pos hdl] at hb
    cases hb
  · rw [if_neg hdl] at hb ⊢
    cases hm : msg.media with
    | none =>
      rw [hm] at hb
      simp at hb
    | some payload =>
      cases payload with
      | photo =>
        rw [hm] at hb
        simp at hb
      | other =>
        rw [hm] at hb
        simp at hb
      | document d =>
        rw [hm] at hb
        dsimp only at hb ⊢
        by_cases hq : (should_download_video cfg.target_qualities cfg.download_nearest d).1 = false
        · rw [if_pos hq] at hb
          cases hb
        · rw [if_neg hq] at hb ⊢
          by_cases hex : ((fetch_side_artifacts env st msg
              (get_series_folder_path cfg.download_path ch (get_series_name msg))).disk
              (get_series_folder_path cfg.download_path ch (get_series_name msg) ++ "/"
                ++ get_file_name (get_series_name msg)
                  (should_download_video cfg.target_qualities cfg.download_nearest d).2)).isSome
              = true
          · rw [if_pos hex] at hb
            cases hb
          · rw [if_neg hex] at hb ⊢
            obtain ⟨size, heq⟩ := run_attempts_true_characterisation env msg.id ch _ _
              cfg.retry_attempts 0 _ hb
            refine ⟨d, size, rfl, by simpa using hq, ?_, ?_⟩
            · rw [Option.not_isSome_iff_eq_none] at hex
              exact hex
            · exact heq

/-- A successful `download_video` step makes its own item Good and
preserves Goodness of every item with a different message key. -/
theorem download_video_true_good (cfg : DMConfig) (env : Env) (st : DMState)
    (msg : Message) (ch : String)
    (hb : (download_video cfg env st msg ch).2 = true) :
    GoodItem cfg ch (download_video cfg env st msg ch).1 msg ∧
    (∀ m', GoodItem cfg ch st m' → toString m'.id ≠ toString msg.id →
      GoodItem cfg ch (download_video cfg env st msg ch).1 m') := by
  obtain ⟨d, size, hm, hq, hnone, heq⟩ :=
    download_video_true_characterisation cfg env st msg ch hb
  have hff := fetch_side_artifacts_frame env st msg
    (get_series_folder_path cfg.download_path ch (get_series_name msg))
  have hres : resolvedFilePath cfg ch msg
      = get_series_folder_path cfg.download_path ch (get_series_name msg) ++ "/"
        ++ get_file_name (get_series_name msg)
            (should_download_video cfg.target_qualities cfg.download_nearest d).2 := by
    unfold resolvedFilePath
    rw [hm]
  have hmeta : (download_video cfg env st msg ch).1.metadata
      = mark_file_as_downloaded st.metadata msg.id ch
          (get_series_folder_path cfg.download_path ch (get_series_name msg) ++ "/"
            ++ get_file_name (get_series_name msg)
              (should_download_video cfg.target_qualities cfg.download_nearest d).2)
          size (should_download_video cfg.target_qualities cfg.download_nearest d).2
          env.now := by
    rw [heq]
    dsimp only
    rw [hff.1]
  have hdisk : (download_video cfg env st msg ch).1.disk
      = writeDisk (fetch_side_artifacts env st msg
          (get_series_folder_path cfg.download_path ch (get_series_name msg))).disk
          (get_series_folder_path cfg.download_path ch (get_series_name msg) ++ "/"
            ++ get_file_name (get_series_name msg)
              (should_download_video cfg.target_qualities cfg.download_nearest d).2)
          size := by
    rw [heq]
  constructor
  · refine ⟨d, hm, hq, ?_⟩
    rw [hmeta, mark_downloaded_eq]
    refine ⟨markedDownRecord st.metadata msg.id ch
        (get_series_folder_path cfg.download_path ch (get_series_name msg) ++ "/"
          ++ get_file_name (get_series_name msg)
            (should_download_video cfg.target_qualities cfg.download_nearest d).2)
        size (should_download_video cfg.target_qualities cfg.download_nearest d).2 env.now,
      ({ file_path := get_series_folder_path cfg.download_path ch (get_series_name msg)
            ++ "/" ++ get_file_name (get_series_name msg)
              (should_download_video cfg.target_qualities cfg.download_nearest d).2
         file_size := size
         quality := (should_download_video cfg.target_qualities cfg.download_nearest d).2
         status := Status.completed
         timestamp := env.now }),
      listLookup_dictInsert_self _ _ _, ?_, ?_, ?_⟩
    · unfold markedDownRecord
      exact listLookup_dictInsert_self _ _ _
    · rw [hres]
    · rw [hdisk]
      simp [writeDisk]
  · intro m' hg' hne
    obtain ⟨d', hm', hq', rec', e', hrec', he', hpath', hdisk'⟩ := hg'
    have hfsdisk : (fetch_side_artifacts env st msg
        (get_series_folder_path cfg.download_path ch (get_series_name msg))).disk
        e'.file_path = some e'.file_size := by
      rw [fetch_side_artifacts_disk_mp4 _ _ _ _ _
        (by rw [hpath']; exact strLast_resolvedFilePath cfg ch m' d' hm')]
      exact hdisk'
    have hpne : e'.file_path
        ≠ get_series_folder_path cfg.download_path ch (get_series_name msg) ++ "/"
          ++ get_file_name (get_series_name msg)
            (should_download_video cfg.target_qualities cfg.download_nearest d).2 := by
      intro hcontra
      rw [hcontra, hnone] at hfsdisk
      cases hfsdisk
    refine ⟨d', hm', hq', markedDownRecord st.metadata msg.id ch
        (get_series_folder_path cfg.download_path ch (get_series_name msg) ++ "/"
          ++ get_file_name (get_series_name msg)
            (should_download_video cfg.target_qualities cfg.download_nearest d).2)
        size (should_download_video cfg.target_qualities cfg.download_nearest d).2 env.now, e',
      ?_, ?_, hpath', ?_⟩
    · rw [hmeta, mark_downloaded_eq]
      exact listLookup_dictInsert_self _ _ _
    · unfold markedDownRecord
      rw [listLookup_dictInsert_ne _ _ hne]
      rw [hrec']
      exact he'
    · rw [hdisk, writeDisk]
      rw [if_neg hpne]
      exact hfsdisk

/-- `downloaded_count` can grow by at most one per item over a fold. -/
theorem foldl_downloaded_le (cfg : DMConfig) (env : Env) (ch : String) :
    ∀ (l : List Message) (st : DMState),
      (l.foldl (fun s m => (download_video cfg env s m ch).1) st).downloaded_count
        ≤ st.downloaded_count + l.length := by
  intro l
  induction l with
  | nil => intro st; simp
  | cons m l ih =>
    intro st
    rw [List.foldl_cons]
    have h1 := download_video_downloaded_flag cfg env st m ch
    have h2 := ih (download_video cfg env st m ch).1
    have h3 : (if (download_video cfg env st m ch).2 then 1 else 0) ≤ 1 := by
      split <;> omega
    simp only [List.length_cons]
    omega

/-- First-run invariant: if a fold downloads every item and the item
keys are distinct, then afterwards every item of the list is Good, and
any previously Good item with a key outside the list stays Good. -/
theorem run1_all_good (cfg : DMConfig) (env : Env) (ch : String) :
    ∀ (l : List Message) (st : DMState),
      ((l.foldl (fun s m => (download_video cfg env s m ch).1) st).downloaded_count
          = st.downloaded_count + l.length) →
      ((l.map (fun m => toString m.id)).Nodup) →
      (∀ m', GoodItem cfg ch st m' →
          toString m'.id ∉ l.map (fun m => toString m.id) →
          GoodItem cfg ch (l.foldl (fun s m => (download_video cfg env s m ch).1) st) m') ∧
      (∀ m ∈ l, GoodItem cfg ch
          (l.foldl (fun s m => (download_video cfg env s m ch).1) st) m) := by
  intro l
  induction l with
  | nil =>
    intro st _ _
    exact ⟨fun m' hg _ => hg, by simp⟩
  | cons m l ih =>
    intro st hcount hnodup
    rw [List.foldl_cons] at hcount
    have hflag : (download_video cfg env st m ch).2 = true := by
      by_contra hfalse
      have hf : (download_video cfg env st m ch).2 = false :=
        Bool.not_eq_true _ ▸ (by simpa using hfalse)
      have h1 := download_video_downloaded_flag cfg env st m ch
      rw [hf] at h1
      simp at h1
      have h2 := foldl_downloaded_le cfg env ch l (download_video cfg env st m ch).1
      rw [h1] at h2
      simp only [List.length_cons] at hcount
      omega
    have h1 := download_video_downloaded_flag cfg env st m ch
    rw [hflag] at h1
    simp at h1
    have hcount' : (l.foldl (fun s m => (download_video cfg env s m ch).1)
        (download_video cfg env st m ch).1).downloaded_count
        = (download_video cfg env st m ch).1.downloaded_count + l.length := by
      rw [h1]
      simp only [List.length_cons] at hcount
      omega
    simp only [List.map_cons, List.nodup_cons] at hnodup
    obtain ⟨hgm, hpres⟩ := download_video_true_good cfg env st m ch hflag
    obtain ⟨ihA, ihB⟩ := ih (download_video cfg env st m ch).1 hcount' hnodup.2
    rw [List.foldl_cons]
    constructor
    · intro m' hg' hnotin
      simp only [List.map_cons, List.mem_cons] at hnotin
      push_neg at hnotin
      exact ihA m' (hpres m' hg' hnotin.1) hnotin.2
    · intro m'' hm''
      rcases List.mem_cons.mp hm'' with he | hmem
      · subst he
        exact ihA m'' hgm hnodup.1
      · exact ihB m'' hmem

/-- Claim C6: running the batch a second time on the same channel and
item sequence — starting from the ledger and files produced by a fully
successful first run, with counters reset — performs zero new downloads
and ends with `skipped = n` and `failed = 0`, leaving the ledger as the
first run left it.  (Items are assumed to have pairwise-distinct message
ids; the bounded-concurrency batch is serialised per item, as its
ledger/counter updates are atomic between awaits.) -/
theorem c6_second_run_idempotent (cfg : DMConfig) (env1 env2 : Env)
    (msgs : List Message) (ch : String) (st0 : DMState)
    (hd0 : st0.downloaded_count = 0)
    (hnodup : (msgs.map (fun m => toString m.id)).Nodup)
    (hfull : (download_batch cfg env1 st0 msgs ch).1.downloaded_count = msgs.length) :
    (download_batch cfg env2
        (reset_statistics (download_batch cfg env1 st0 msgs ch).1) msgs ch).2.1 = 0 ∧
    (download_batch cfg env2
        (reset_statistics (download_batch cfg env1 st0 msgs ch).1) msgs ch).2.2.1
      = msgs.length ∧
    (download_batch cfg env2
        (reset_statistics (download_batch cfg env1 st0 msgs ch).1) msgs ch).2.2.2.1 = 0 ∧
    (download_batch cfg env2
        (reset_statistics (download_batch cfg env1 st0 msgs ch).1) msgs ch).1.metadata
      = (download_batch cfg env1 st0 msgs ch).1.metadata := by
  by_cases hne : msgs.isEmpty = true
  · have hnil : msgs = [] := List.isEmpty_iff.mp hne
    subst hnil
    exact ⟨rfl, rfl, rfl, rfl⟩
  · have hb1 : download_batch cfg env1 st0 msgs ch
        = (msgs.foldl (fun s m => (download_video cfg env1 s m ch).1) st0,
           ((msgs.foldl (fun s m => (download_video cfg env1 s m ch).1) st0).downloaded_count,
            (msgs.foldl (fun s m => (download_video cfg env1 s m ch).1) st0).skipped_count,
            (msgs.foldl (fun s m => (download_video cfg env1 s m ch).1) st0).failed_count,
            (msgs.foldl (fun s m => (download_video cfg env1 s m ch).1) st0).total_size)) := by
      unfold download_batch
      rw [if_neg hne]
    have hcnt : (msgs.foldl (fun s m => (download_video cfg env1 s m ch).1) st0).downloaded_count
        = st0.downloaded_count + msgs.length := by
      rw [hb1] at hfull
      dsimp only at hfull
      omega
    have hgood1 := (run1_all_good cfg env1 ch msgs st0 hcnt hnodup).2
    have hgood2 : ∀ m ∈ msgs, GoodItem cfg ch
        (reset_statistics (download_batch cfg env1 st0 msgs ch).1) m := by
      intro m hm
      refine GoodItem_preserved cfg ch _ _ m ?_ (fun p _ => ?_) (hgood1 m hm)
      · rw [hb1]
        rfl
      · rw [hb1]
        rfl
    obtain ⟨h2meta, h2skip, h2down, h2fail, -⟩ :=
      foldl_skip_of_good cfg env2 ch msgs
        (reset_statistics (download_batch cfg env1 st0 msgs ch).1) hgood2
    have hb2 : download_batch cfg env2
        (reset_statistics (download_batch cfg env1 st0 msgs ch).1) msgs ch
        = (msgs.foldl (fun s m => (download_video cfg env2 s m ch).1)
             (reset_statistics (download_batch cfg env1 st0 msgs ch).1),
           ((msgs.foldl (fun s m => (download_video cfg env2 s m ch).1)
               (reset_statistics (download_batch cfg env1 st0 msgs ch).1)).downloaded_count,
            (msgs.foldl (fun s m => (download_video cfg env2 s m ch).1)
               (reset_statistics (download_batch cfg env1 st0 msgs ch).1)).skipped_count,
            (msgs.foldl (fun s m => (download_video cfg env2 s m ch).1)
               (reset_statistics (download_batch cfg env1 st0 msgs ch).1)).failed_count,
            (msgs.foldl (fun s m => (download_video cfg env2 s m ch).1)
               (reset_statistics (download_batch cfg env1 st0 msgs ch).1)).total_size)) := by
      unfold download_batch
      rw [if_neg hne]
    rw [hb2]
    dsimp only
    refine ⟨?_, ?_, ?_, ?_⟩
    · rw [h2down]
      rfl
    · rw [h2skip]
      show 0 + msgs.length = msgs.length
      omega
    · rw [h2fail]
      rfl
    · rw [h2meta]
      rfl

/-- Witness for C6: a one-item batch downloads on the first run; the
second run, after resetting counters, skips the item and downloads
nothing. -/
theorem c6_second_run_idempotent_witness :
    (download_batch cfg0 env0
        (reset_statistics (download_batch cfg0 env0 dmState0 [c1_msg] "c").1)
        [c1_msg] "c").2.1 = 0 ∧
    (download_batch cfg0 env0
        (reset_statistics (download_batch cfg0 env0 dmState0 [c1_msg] "c").1)
        [c1_msg] "c").2.2.1 = 1 :=
  have h := c6_second_run_idempotent cfg0 env0 env0 [c1_msg] "c" dmState0 rfl
    (by decide) (by decide)
  ⟨h.1, h.2.1⟩

end TVD
